import Mathlib

/-!
Verification of the Grove synchronization and reconciliation pipeline.

This file is a shallow embedding of the core of the Grove personal-finance
backend (app/crud/account.py, app/crud/transaction.py, app/sync/simplefin.py,
app/utils/hash.py), together with theorems settling the specification claims.

Modelling conventions:
* UTC datetimes are epoch seconds (an integer); `datetime.now(UTC)` becomes an
  explicit `now` parameter.
* `Numeric(12,2)` amounts and values parsed with Python `float(...)` are
  rationals.  Python `repr`/`str` of a float is a function of its numeric
  value, so applying `float` to a `Decimal` is modelled by taking the
  underlying rational value.
* Python `Decimal` is a mantissa/scale pair (`Dec` below), so that
  `Decimal("12.50")` and `Decimal("12.5")` are distinct representations of the
  same numeric value, exactly as in Python.
* Fallible code returns `Except`.
-/

namespace Grove

/-! ## SHA-256 (`hashlib.sha256(...).hexdigest()`), over lists of bytes -/

namespace SHA256

/-- Truncate to a 32-bit word. -/
def w32 (n : ℕ) : ℕ := n % 4294967296

/-- Right rotation of a 32-bit word. -/
def rotr (k x : ℕ) : ℕ := w32 ((x >>> k) ||| (x <<< (32 - k)))

def ch (x y z : ℕ) : ℕ := w32 (((x &&& y)) ^^^ ((x ^^^ 4294967295) &&& z))

def maj (x y z : ℕ) : ℕ := w32 ((x &&& y) ^^^ (x &&& z) ^^^ (y &&& z))

def bigS0 (x : ℕ) : ℕ := w32 (rotr 2 x ^^^ rotr 13 x ^^^ rotr 22 x)

def bigS1 (x : ℕ) : ℕ := w32 (rotr 6 x ^^^ rotr 11 x ^^^ rotr 25 x)

def smallS0 (x : ℕ) : ℕ := w32 (rotr 7 x ^^^ rotr 18 x ^^^ (x >>> 3))

def smallS1 (x : ℕ) : ℕ := w32 (rotr 17 x ^^^ rotr 19 x ^^^ (x >>> 10))

/-- The 64 SHA-256 round constants (FIPS 180-4 §4.2.2, in decimal). -/
def K : List ℕ :=
  [1116352408, 1899447441, 3049323471, 3921009573, 961987163, 1508970993,
   2453635748, 2870763221, 3624381080, 310598401, 607225278, 1426881987,
   1925078388, 2162078206, 2614888103, 3248222580, 3835390401, 4022224774,
   264347078, 604807628, 770255983, 1249150122, 1555081692, 1996064986,
   2554220882, 2821834349, 2952996808, 3210313671, 3336571891, 3584528711,
   113926993, 338241895, 666307205, 773529912, 1294757372, 1396182291,
   1695183700, 1986661051, 2177026350, 2456956037, 2730485921, 2820302411,
   3259730800, 3345764771, 3516065817, 3600352804, 4094571909, 275423344,
   430227734, 506948616, 659060556, 883997877, 958139571, 1322822218,
   1537002063, 1747873779, 1955562222, 2024104815, 2227730452, 2361852424,
   2428436474, 2756734187, 3204031479, 3329325298]

/-- The eight 32-bit words of a hash value. -/
structure Words8 where
  w0 : ℕ
  w1 : ℕ
  w2 : ℕ
  w3 : ℕ
  w4 : ℕ
  w5 : ℕ
  w6 : ℕ
  w7 : ℕ
deriving DecidableEq

/-- SHA-256 initial hash value (FIPS 180-4 §5.3.3, in decimal). -/
def initH : Words8 :=
  ⟨1779033703, 3144134277, 1013904242, 2773480762,
   1359893119, 2600822924, 528734635, 1541459225⟩

/-- Working registers of the compression function. -/
structure Regs where
  a : ℕ
  b : ℕ
  c : ℕ
  d : ℕ
  e : ℕ
  f : ℕ
  g : ℕ
  h : ℕ
deriving DecidableEq

/-- One compression round; `kw` is the pair of round constant and schedule word. -/
def roundStep (r : Regs) (kw : ℕ × ℕ) : Regs :=
  let t1 := w32 (r.h + bigS1 r.e + ch r.e r.f r.g + kw.1 + kw.2)
  let t2 := w32 (bigS0 r.a + maj r.a r.b r.c)
  ⟨w32 (t1 + t2), r.a, r.b, r.c, w32 (r.d + t1), r.e, r.f, r.g⟩

/-- Big-endian 32-bit words from bytes. -/
def wordsOfBytes : List ℕ → List ℕ
  | a :: b :: c :: d :: rest => ((a <<< 24) ||| (b <<< 16) ||| (c <<< 8) ||| d) :: wordsOfBytes rest
  | _ => []

/-- Extend the 16 block words with `n` further schedule words. -/
def extendW : ℕ → List ℕ → List ℕ
  | 0, ws => ws
  | n + 1, ws =>
      let i := ws.length
      extendW n (ws ++ [w32 (smallS1 (ws.getD (i - 2) 0) + ws.getD (i - 7) 0 +
        smallS0 (ws.getD (i - 15) 0) + ws.getD (i - 16) 0)])

/-- Compress one 64-byte block into the hash value. -/
def compress (hv : Words8) (block : List ℕ) : Words8 :=
  let ws := extendW 48 (wordsOfBytes block)
  let r0 : Regs := ⟨hv.w0, hv.w1, hv.w2, hv.w3, hv.w4, hv.w5, hv.w6, hv.w7⟩
  let r := (K.zip ws).foldl roundStep r0
  ⟨w32 (hv.w0 + r.a), w32 (hv.w1 + r.b), w32 (hv.w2 + r.c), w32 (hv.w3 + r.d),
   w32 (hv.w4 + r.e), w32 (hv.w5 + r.f), w32 (hv.w6 + r.g), w32 (hv.w7 + r.h)⟩

/-- The 8-byte big-endian encoding of the message bit length. -/
def lenBE (L : ℕ) : List ℕ :=
  let b := (8 * L) % 18446744073709551616
  [(b >>> 56) % 256, (b >>> 48) % 256, (b >>> 40) % 256, (b >>> 32) % 256,
   (b >>> 24) % 256, (b >>> 16) % 256, (b >>> 8) % 256, b % 256]

/-- SHA-256 padding: a 0x80 byte, zeros to 56 mod 64, then the bit length. -/
def pad (msg : List ℕ) : List ℕ :=
  msg ++ [128] ++ List.replicate ((119 - msg.length % 64) % 64) 0 ++ lenBE msg.length

/-- Fold the compression function over the 64-byte blocks of the padded message. -/
def processBlocks (hv : Words8) (bytes : List ℕ) : Words8 :=
  match bytes with
  | [] => hv
  | x :: rest => processBlocks (compress hv ((x :: rest).take 64)) ((x :: rest).drop 64)
termination_by bytes.length
decreasing_by simp [List.length_drop]; omega

def hexChars : List Char := "0123456789abcdef".data

def hexChar (n : ℕ) : Char := hexChars.getD (n % 16) '0'

def byteHex (b : ℕ) : List Char := [hexChar (b / 16), hexChar b]

def wordHex (w : ℕ) : List Char :=
  byteHex ((w >>> 24) % 256) ++ byteHex ((w >>> 16) % 256) ++ byteHex ((w >>> 8) % 256) ++
    byteHex (w % 256)

/-- Lower-case hex rendering of the final hash value (`hexdigest()`). -/
def digestHex (hv : Words8) : String :=
  ⟨wordHex hv.w0 ++ wordHex hv.w1 ++ wordHex hv.w2 ++ wordHex hv.w3 ++ wordHex hv.w4 ++
    wordHex hv.w5 ++ wordHex hv.w6 ++ wordHex hv.w7⟩

/-- SHA-256 hex digest of a byte list. -/
def sha256Hex (msg : List ℕ) : String := digestHex (processBlocks initH (pad msg))

end SHA256

/-- UTF-8 encoding of one character (`str.encode()` acts per code point). -/
def utf8Char (c : Char) : List ℕ :=
  let n := c.toNat
  if n < 128 then [n]
  else if n < 2048 then [192 ||| (n >>> 6), 128 ||| (n &&& 63)]
  else if n < 65536 then
    [224 ||| (n >>> 12), 128 ||| ((n >>> 6) &&& 63), 128 ||| (n &&& 63)]
  else
    [240 ||| (n >>> 18), 128 ||| ((n >>> 12) &&& 63), 128 ||| ((n >>> 6) &&& 63),
     128 ||| (n &&& 63)]

/-- UTF-8 bytes of a string (`sig.encode()`). -/
def utf8 (s : String) : List ℕ := (s.data.map utf8Char).flatten

/-! ## Python `Decimal` and float rendering -/

/-- A Python `Decimal`: mantissa and decimal scale.  `Decimal("12.50")` is
`⟨1250, 2⟩` while `Decimal("12.5")` is `⟨125, 1⟩`: distinct representations of
the same numeric value. -/
structure Dec where
  mant : ℤ
  scale : ℕ
deriving DecidableEq

/-- The numeric value of a `Decimal`. -/
def Dec.val (d : Dec) : ℚ := (d.mant : ℚ) / (10 : ℚ) ^ d.scale

/-- Drop trailing `'0'` characters. -/
def stripZeros (l : List Char) : List Char := (l.reverse.dropWhile (· = '0')).reverse

/-- Left-pad with `'0'` to length `k`. -/
def padZeros (l : List Char) (k : ℕ) : List Char := List.replicate (k - l.length) '0' ++ l

/-- The first 17 decimal digits of the fraction `r / den` (with `r < den`):
the digits of `⌊r/den * 10^17⌋`, left-padded to 17 places. -/
def fracRender (r den : ℕ) : List Char :=
  padZeros (toString (r * 10 ^ 17 / den)).data 17

/-- Python `str(float(m/den))` for the decimal-fraction values this program
handles: sign, integer part, a dot and the fractional digits without trailing
zeros (at least one digit, so `12` renders as `"12.0"`).  Stated on a
numerator/denominator pair so that it evaluates by integer arithmetic; Python's
float `repr` is a function of the numeric value alone, which is the only fact
the program relies on. -/
def floatStrFrac (m : ℤ) (den : ℕ) : String :=
  let sgn := if m < 0 then "-" else ""
  let a : ℕ := m.natAbs
  let fd := stripZeros (fracRender (a % den) den)
  let fd := if fd = [] then ['0'] else fd
  sgn ++ toString (a / den) ++ "." ++ ⟨fd⟩

/-- Python `str(float(q))` of a rational value. -/
def floatStr (q : ℚ) : String := floatStrFrac q.num q.den

/-! ## UTC datetimes -/

/-- Two-digit zero-padded rendering. -/
def pad2 (n : ℕ) : String := if n < 10 then "0" ++ toString n else toString n

/-- Gregorian calendar date from a day count since 1970-01-01 (proleptic,
Hinnant's `civil_from_days`). -/
def civilFromDays (days : ℤ) : ℤ × ℕ × ℕ :=
  let z := days + 719468
  let era : ℤ := Int.fdiv z 146097
  let doe : ℕ := (z - era * 146097).toNat
  let yoe : ℕ := (doe - doe / 1460 + doe / 36524 - doe / 146096) / 365
  let doy : ℕ := doe - (365 * yoe + yoe / 4 - yoe / 100)
  let mp : ℕ := (5 * doy + 2) / 153
  let d : ℕ := doy - (153 * mp + 2) / 5 + 1
  let m : ℕ := if mp < 10 then mp + 3 else mp - 9
  ((yoe : ℤ) + era * 400 + (if m ≤ 2 then 1 else 0), m, d)

/-- `datetime.fromtimestamp(t, tz=UTC).isoformat()` for whole-second epochs:
`YYYY-MM-DDTHH:MM:SS+00:00`. -/
def datetimeIso (t : ℤ) : String :=
  let days := Int.ediv t 86400
  let secs := (Int.emod t 86400).toNat
  let c := civilFromDays days
  toString c.1 ++ "-" ++ pad2 c.2.1 ++ "-" ++ pad2 c.2.2 ++ "T" ++
    pad2 (secs / 3600) ++ ":" ++ pad2 (secs / 60 % 60) ++ ":" ++ pad2 (secs % 60) ++ "+00:00"

/-! ## ContentHasher (`app/utils/hash.py`, `compute_transaction_hash`) -/

/-- `compute_transaction_hash(account_id, posted, amount, description)`:
SHA-256 hex digest of `f"{account_id}:{posted_str}:{float(amount)}:{description or ''}"`
where `posted_str` is `posted.isoformat()` or `"none"`.  (`description or ''`
equals `description` for every string, so it is the identity here.) -/
def compute_transaction_hash (account_id : String) (posted : Option ℤ) (amount : Dec)
    (description : String) : String :=
  let posted_str := match posted with
    | some t => datetimeIso t
    | none => "none"
  let sig := account_id ++ ":" ++ posted_str ++ ":" ++
    floatStrFrac amount.mant (10 ^ amount.scale) ++ ":" ++ description
  SHA256.sha256Hex (utf8 sig)

/-! ## Data model (app/models.py)

Rows are structures; the session/database is a `DB` of row lists.  Columns no
claim touches (alt_name, is_hidden, memo, transacted_at, is_pending, the payee
and org tables, holding details) are omitted.  `Transaction.posted` is
non-nullable in the schema. -/

inductive AccountType
  | bank
  | credit_card
  | investment
  | loan
deriving DecidableEq

structure Account where
  id : String
  name : String
  org_id : String
  currency : String
  account_type : Option AccountType
  created_at : Option ℤ
deriving DecidableEq

structure Txn where
  id : String
  account_id : String
  amount : ℚ
  posted : ℤ
  description : Option String
  payee_id : Option ℤ
  content_hash : Option String
deriving DecidableEq

structure Split where
  transaction_id : String
  category_id : ℤ
  amount : ℚ
deriving DecidableEq

structure Holding where
  id : String
  account_id : String
deriving DecidableEq

structure Balance where
  account_id : String
  balance : ℚ
  balance_date : ℤ
deriving DecidableEq

structure DB where
  accounts : List Account
  transactions : List Txn
  splits : List Split
  holdings : List Holding
  balances : List Balance
deriving DecidableEq

/-- The natural key used by merge and duplicate detection:
`(txn.posted, float(txn.amount), txn.description or "")`. -/
def Txn.key (t : Txn) : ℤ × ℚ × String := (t.posted, t.amount, t.description.getD "")

/-! ## AccountMerger (`app/crud/account.py`, `merge_accounts`) -/

structure MergeStats where
  transactions_reassigned : ℕ
  transactions_removed : ℕ
  transactions_matched : ℕ
  holdings_reassigned : ℕ
  source_account_deleted : Bool
deriving DecidableEq

/-- The two `ValueError`s `merge_accounts` raises, distinguished by raise site:
`notFound` is "Source or target account not found", `validation` is
"Can only merge accounts with matching org_id and name". -/
inductive MergeError
  | notFound
  | validation
deriving DecidableEq

/-- The target-transaction `dict` keyed by natural key (later insertions
overwrite), then `.get(key)`: the last target transaction with that key. -/
def targetGet (targets : List Txn) (k : ℤ × ℚ × String) : Option Txn :=
  targets.foldl (fun acc t => if t.key = k then some t else acc) none

structure MergeLoopState where
  transactions : List Txn
  splits : List Split
  stats : MergeStats
deriving DecidableEq

/-- Body of the source-transaction loop of `merge_accounts`
(app/crud/account.py:425-466).  Deleting a transaction cascades its splits
(`cascade="all, delete-orphan"`); `if source_txn.payee_id:` is Python
truthiness (both `None` and `0` are falsy). -/
def mergeTxnStep (targets : List Txn) (preserve_categorization : Bool) (cutoff : ℤ)
    (target_account_id : String) (st : MergeLoopState) (source_txn : Txn) : MergeLoopState :=
  if cutoff ≤ source_txn.posted then
    let st : MergeLoopState :=
      match targetGet targets source_txn.key with
      | some target_txn =>
        if preserve_categorization then
          let splits := st.splits.filter (fun sp => sp.transaction_id ≠ target_txn.id)
          let source_splits := splits.filter (fun sp => sp.transaction_id = source_txn.id)
          let splits := splits ++ source_splits.map (fun sp =>
            { transaction_id := target_txn.id, category_id := sp.category_id,
              amount := sp.amount : Split })
          let transactions :=
            if source_txn.payee_id.getD 0 ≠ 0 then
              st.transactions.map (fun t =>
                if t.id = target_txn.id then { t with payee_id := source_txn.payee_id } else t)
            else st.transactions
          { transactions := transactions, splits := splits,
            stats := { st.stats with
              transactions_matched := st.stats.transactions_matched + 1 } }
        else st
      | none => st
    { transactions := st.transactions.filter (fun t => t.id ≠ source_txn.id),
      splits := st.splits.filter (fun sp => sp.transaction_id ≠ source_txn.id),
      stats := { st.stats with transactions_removed := st.stats.transactions_removed + 1 } }
  else
    { st with
      transactions := st.transactions.map (fun t =>
        if t.id = source_txn.id then { t with account_id := target_account_id } else t),
      stats := { st.stats with
        transactions_reassigned := st.stats.transactions_reassigned + 1 } }

/-- The body of `merge_accounts` after the precondition checks
(app/crud/account.py:398-480): the cutoff is `now - lookback_months*30 days`;
the source-transaction loop runs over the shared session state; holdings are
reassigned; the source account row is deleted, cascading its balances, and the
`ON DELETE CASCADE` foreign keys take any rows still referencing it (none
remain for a distinct source after the loop). -/
def mergeBody (db : DB) (now : ℤ) (source_account_id target_account_id : String)
    (preserve_categorization : Bool) (simplefin_lookback_months : ℕ) : DB × MergeStats :=
  let cutoff := now - (simplefin_lookback_months : ℤ) * 30 * 86400
  let source_transactions := db.transactions.filter (fun t => t.account_id = source_account_id)
  let target_transactions := db.transactions.filter (fun t => t.account_id = target_account_id)
  let st0 : MergeLoopState := ⟨db.transactions, db.splits, ⟨0, 0, 0, 0, false⟩⟩
  let st := source_transactions.foldl
    (mergeTxnStep target_transactions preserve_categorization cutoff target_account_id) st0
  let holdings_cnt := (db.holdings.filter (fun h => h.account_id = source_account_id)).length
  let holdings := db.holdings.map (fun h =>
    if h.account_id = source_account_id then { h with account_id := target_account_id } else h)
  let cascaded := st.transactions.filter (fun t => t.account_id = source_account_id)
  let transactions := st.transactions.filter (fun t => t.account_id ≠ source_account_id)
  let splits := st.splits.filter (fun sp =>
    !cascaded.any (fun t => decide (t.id = sp.transaction_id)))
  ({ accounts := db.accounts.filter (fun a => a.id ≠ source_account_id),
     transactions := transactions,
     splits := splits,
     holdings := holdings.filter (fun h => h.account_id ≠ source_account_id),
     balances := db.balances.filter (fun b => b.account_id ≠ source_account_id) },
   { transactions_reassigned := st.stats.transactions_reassigned,
     transactions_removed := st.stats.transactions_removed,
     transactions_matched := st.stats.transactions_matched,
     holdings_reassigned := holdings_cnt,
     source_account_deleted := true })

/-- `merge_accounts(db, source_account_id, target_account_id,
preserve_categorization, simplefin_lookback_months)` (app/crud/account.py:359).
`now` is `datetime.now(UTC)`. -/
def merge_accounts (db : DB) (now : ℤ) (source_account_id target_account_id : String)
    (preserve_categorization : Bool) (simplefin_lookback_months : ℕ) :
    Except MergeError (DB × MergeStats) :=
  match (db.accounts.filter (fun a => a.id = source_account_id)).head?,
        (db.accounts.filter (fun a => a.id = target_account_id)).head? with
  | some source_account, some target_account =>
    if source_account.org_id ≠ target_account.org_id ∨
        source_account.name ≠ target_account.name then
      .error .validation
    else
      .ok (mergeBody db now source_account_id target_account_id
        preserve_categorization simplefin_lookback_months)
  | _, _ => .error .notFound

/-! ## DuplicateAccountDetector (`app/crud/account.py`, `find_duplicate_accounts`) -/

/-- Insertion into a list sorted by `le`. -/
def ordInsert (le : α → α → Bool) (a : α) : List α → List α
  | [] => [a]
  | b :: l => if le a b then a :: b :: l else b :: ordInsert le a l

/-- Insertion sort by `le`. -/
def insSort (le : α → α → Bool) : List α → List α
  | [] => []
  | a :: l => ordInsert le a (insSort le l)

/-- The ordering `created_at.asc().nulls_last(), id` used both by the account
query and by the Python sort key `(created_at or datetime.max, id)`. -/
def accLe (a b : Account) : Bool :=
  match a.created_at, b.created_at with
  | some x, some y => decide (x < y) || (decide (x = y) && decide (a.id ≤ b.id))
  | some _, none => true
  | none, some _ => false
  | none, none => decide (a.id ≤ b.id)

/-- `order_by(desc(Transaction.posted))`: most recent first. -/
def txnGe (t u : Txn) : Bool := decide (u.posted ≤ t.posted)

/-- The distinct `(org_id, name)` keys with more than one account
(`GROUP BY ... HAVING count > 1`), in first-occurrence order. -/
def dupKeys (db : DB) : List (String × String) :=
  ((db.accounts.map (fun a => (a.org_id, a.name))).dedup).filter
    (fun k => 1 < db.accounts.countP (fun a => decide (a.org_id = k.1 ∧ a.name = k.2)))

structure DupGroup where
  org_id : String
  name : String
  accounts : List Account
deriving DecidableEq

/-- All ordered pairs `(accounts[i], accounts[j])` with `i < j`. -/
def pairsOf : List α → List (α × α)
  | [] => []
  | a :: l => l.map (fun b => (a, b)) ++ pairsOf l

/-- Python `set` membership for ORM rows is object identity, which under
primary-key uniqueness is id equality. -/
def setHas (s : List Account) (a : Account) : Bool := s.any (fun x => decide (x.id = a.id))

def setAdd (s : List Account) (a : Account) : List Account := if setHas s a then s else s ++ [a]

def setUnion (s t : List Account) : List Account := t.foldl setAdd s

def setsOverlap (s t : List Account) : Bool := s.any (setHas t)

/-- First pass of the grouping loop: find the first set containing either
account of the pair and add both; otherwise append a new set. -/
def addPair : List (List Account) → Account × Account → List (List Account)
  | [], p => [setAdd (setAdd [] p.1) p.2]
  | s :: rest, p =>
      if setHas s p.1 || setHas s p.2 then setAdd (setAdd s p.1) p.2 :: rest
      else s :: addPair rest p

/-- Inner while-loop of the overlap merge: absorb into `s` every later set it
overlaps (re-checking subsequent sets against the grown `s`, never earlier
ones), returning the grown set and the survivors. -/
def absorb (s : List Account) : List (List Account) → List Account × List (List Account)
  | [] => (s, [])
  | t :: rest =>
      if setsOverlap s t then absorb (setUnion s t) rest
      else
        let r := absorb s rest
        (r.1, t :: r.2)

/-- Outer while-loop of the overlap merge.  The fuel equals the initial number
of sets, which bounds the number of outer steps since each step consumes one
set. -/
def mergeSetsFuel : ℕ → List (List Account) → List (List Account)
  | 0, sets => sets
  | _ + 1, [] => []
  | n + 1, s :: rest =>
      let r := absorb s rest
      r.1 :: mergeSetsFuel n r.2

def mergeSets (sets : List (List Account)) : List (List Account) :=
  mergeSetsFuel sets.length sets

/-- The most-recent-`sample_size` transactions of an account
(`order_by(desc(posted)).limit(sample_size)`). -/
def recentSample (db : DB) (sample_size : ℕ) (account_id : String) : List Txn :=
  (insSort txnGe (db.transactions.filter (fun t => t.account_id = account_id))).take sample_size

/-- How many of the sample's natural keys occur among `newer`'s transactions
(the `newer_txn_map` key lookup). -/
def sampleMatches (sample newer : List Txn) : ℕ :=
  sample.countP (fun t => newer.any (fun u => decide (u.key = t.key)))

/-- Processing of one `(org_id, name)` duplicate-candidate group
(app/crud/account.py:194-354), given the group's accounts already sorted
older-first: the two-account branch tests the pair (skipping when the older
account has no transactions), the other branch tests all pairs and merges
transitively related ones. -/
def processGroupAccs (db : DB) (sample_size : ℕ) (min_ratio : ℚ) (k : String × String) :
    List Account → List DupGroup
  | [older_account, newer_account] =>
      let older_transactions := recentSample db sample_size older_account.id
      if older_transactions.isEmpty then []
      else
        let newer_transactions := db.transactions.filter
          (fun t => t.account_id = newer_account.id)
        let match_cnt := sampleMatches older_transactions newer_transactions
        if min_ratio ≤ (match_cnt : ℚ) / (older_transactions.length : ℚ) then
          [⟨k.1, k.2, [older_account, newer_account]⟩]
        else []
  | accs =>
      let duplicate_pairs := (pairsOf accs).filter (fun p =>
        let older_txns := recentSample db sample_size p.1.id
        let newer_txns := db.transactions.filter (fun t => t.account_id = p.2.id)
        !older_txns.isEmpty && !newer_txns.isEmpty &&
          decide (min_ratio ≤ (sampleMatches older_txns newer_txns : ℚ) / (older_txns.length : ℚ)))
      if duplicate_pairs.isEmpty then []
      else
        (mergeSets (duplicate_pairs.foldl addPair [])).map
          (fun s => ⟨k.1, k.2, insSort accLe s⟩)

/-- Processing of one `(org_id, name)` duplicate-candidate group: the group's
accounts are queried ordered by `created_at.asc().nulls_last(), id`. -/
def processGroup (db : DB) (sample_size : ℕ) (min_ratio : ℚ) (k : String × String) :
    List DupGroup :=
  processGroupAccs db sample_size min_ratio k
    (insSort accLe (db.accounts.filter (fun a => a.org_id = k.1 ∧ a.name = k.2)))

/-- `find_duplicate_accounts(db, transaction_sample_size, min_match_ratio)`
(app/crud/account.py:157); the environment defaults are `5` and `0.8`. -/
def find_duplicate_accounts (db : DB) (sample_size : ℕ) (min_ratio : ℚ) : List DupGroup :=
  ((dupKeys db).map (processGroup db sample_size min_ratio)).flatten

/-! ## AccountClassifier (`app/sync/simplefin.py`, `classify_account`) -/

structure HoldingRecord where
  id : String
deriving DecidableEq

/-- A remote SimpleFIN account record (the dict fields the core reads).
`balance` and the two available-balance fields model the values
`float(acct.get(key))` would produce: `none` stands for an absent key or an
unparsable value (both leave the Python local `None`).
`available_balance_hyphen` is the field the remote API delivers under the JSON
key `"available-balance"` (the one `process_account_balance` reads);
`available_balance` is the underscore-spelled key `classify_account` reads,
which no remote payload carries. -/
structure AccountRecord where
  id : String
  name : String
  org_id : String
  currency : String
  holdings : List HoldingRecord
  balance : Option ℚ
  available_balance : Option ℚ
  available_balance_hyphen : Option ℚ
deriving DecidableEq

/-- ASCII lower-casing; the classifier keywords are all ASCII. -/
def lowerChar (c : Char) : Char :=
  if 'A' ≤ c ∧ c ≤ 'Z' then Char.ofNat (c.toNat + 32) else c

def asciiLower (s : String) : String := ⟨s.data.map lowerChar⟩

def charsStart : List Char → List Char → Bool
  | [], _ => true
  | _ :: _, [] => false
  | a :: as, b :: bs => a == b && charsStart as bs

def charsHave (needle : List Char) : List Char → Bool
  | [] => needle.isEmpty
  | c :: rest => charsStart needle (c :: rest) || charsHave needle rest

/-- Python `needle in hay` for strings: substring containment. -/
def strIn (needle hay : String) : Bool := charsHave needle.data hay.data

def investment_keywords : List String :=
  ["brokerage", "investment", "401k", "403b", "roth", "ira", "retirement", "portfolio",
   "trading", "stock plan", "etrade", "robinhood", "schwab", "fidelity", "vanguard",
   "merrill", "td ameritrade", "fund", "mutual", "equity", "securities"]

def credit_keywords : List String :=
  ["card", "credit", "visa", "mastercard", "amex", "discover"]

def bank_keywords : List String :=
  ["checking", "savings", "spending", "deposit", "dda", "mma", "money market"]

/-- `classify_account(acct)` (app/sync/simplefin.py:523): holdings, then name
keywords (investment, credit, bank), then the balance-sign fallback.  The
fallback reads `acct.get("available_balance")` — the underscore key. -/
def classify_account (acct : AccountRecord) : Option AccountType :=
  if 0 < acct.holdings.length then some .investment
  else
    let name := asciiLower acct.name
    if investment_keywords.any (fun kw => strIn kw name) then some .investment
    else if credit_keywords.any (fun kw => strIn kw name) then some .credit_card
    else if bank_keywords.any (fun kw => strIn kw name) then some .bank
    else
      match acct.balance, acct.available_balance with
      | some balance, avail =>
          if avail = none ∧ balance ≤ 0 then some .credit_card
          else if 0 ≤ balance ∧ (avail = none ∨ 0 ≤ avail.getD 0) then some .bank
          else none
      | none, _ => none

/-- The classification cascade as the specification states it: identical to
`classify_account` except that the balance heuristics read the remote
`available-balance` field. -/
def classify_account_spec (acct : AccountRecord) : Option AccountType :=
  if 0 < acct.holdings.length then some .investment
  else
    let name := asciiLower acct.name
    if investment_keywords.any (fun kw => strIn kw name) then some .investment
    else if credit_keywords.any (fun kw => strIn kw name) then some .credit_card
    else if bank_keywords.any (fun kw => strIn kw name) then some .bank
    else
      match acct.balance, acct.available_balance_hyphen with
      | some balance, avail =>
          if avail = none ∧ balance ≤ 0 then some .credit_card
          else if 0 ≤ balance ∧ (avail = none ∨ 0 ≤ avail.getD 0) then some .bank
          else none
      | none, _ => none

/-! ## IngestionWriter: accounts (`process_accounts`) -/

/-- The fields of `AccountCreate(**acct)` for a remote record: remote payloads
carry no `account_type` key, so the pydantic field starts out `None`. -/
structure AccountCreateData where
  id : String
  name : String
  org_id : String
  currency : String
  account_type : Option AccountType
deriving DecidableEq

def accountCreateOf (acct : AccountRecord) : AccountCreateData :=
  ⟨acct.id, acct.name, acct.org_id, acct.currency, none⟩

/-- `create_account(db, data)` (app/crud/account.py:20): inserts the row with
`created_at = datetime.now(UTC)`. -/
def create_account (db : DB) (data : AccountCreateData) (now : ℤ) : DB :=
  { db with accounts := db.accounts ++
      [⟨data.id, data.name, data.org_id, data.currency, data.account_type, some now⟩] }

/-- `update_account(db, id, AccountUpdate(**acct))` for a remote record:
`AccountUpdate` takes only name/currency/org_id from the record dict (it has no
alt_name/is_hidden/account_type keys), so `exclude_unset` updates exactly
those three columns and `account_type` is untouched. -/
def update_account_from_record (db : DB) (id : String) (acct : AccountRecord) : DB :=
  { db with accounts := db.accounts.map (fun a =>
      if a.id = id then
        { a with name := acct.name, currency := acct.currency, org_id := acct.org_id }
      else a) }

/-- `process_accounts(db, accounts, org_id)` (app/sync/simplefin.py:605).
When classification applies, its result is stored into the local `data` — but
the update branch passes `AccountUpdate(**acct)` (the raw record) and the
create branch rebuilds `data = AccountCreate(**acct)` after setting
`acct["created_at"]`, exactly as the source does. -/
def process_accounts (db : DB) (accounts : List AccountRecord) (org_id : String) (now : ℤ) :
    DB :=
  accounts.foldl (fun db acct =>
    let acct := { acct with org_id := org_id }
    let data := accountCreateOf acct
    let existing := db.accounts.filter (fun a => a.id = acct.id)
    let shouldClassify : Bool :=
      match existing.head? with
      | none => true
      | some a => decide (a.account_type = none)
    let data :=
      if shouldClassify then
        match classify_account acct with
        | some t => { data with account_type := some t }
        | none => data
      else data
    match existing.head? with
    | some _ => update_account_from_record db acct.id acct
    | none =>
        let data := accountCreateOf acct
        create_account db data now) db

/-! ## IngestionWriter: transactions (`create_transaction`, `process_transactions`) -/

structure SplitIn where
  category_id : ℤ
  amount : ℚ
deriving DecidableEq

/-- Input to `create_transaction` (`schemas.TransactionCreate` or the sync txn
dict).  The optional `payee` key drives only the payee find-or-create branch;
it is absent in every scenario these claims exercise and is not modelled (it
touches only the payees table and the new row's `payee_id`). -/
structure TransactionCreateIn where
  id : String
  account_id : String
  amount : ℚ
  posted : ℤ
  description : Option String
  content_hash : Option String
  splits : Option (List SplitIn)
deriving DecidableEq

inductive CreateTxnError
  | splitMismatch (transaction_id : String) (expected actual : ℚ)
deriving DecidableEq

/-- `_validate_splits(transaction)` (app/crud/transaction.py:27): when the ORM
object's split collection is non-empty and its amounts do not sum to the
transaction amount, raise `SplitMismatchError`. -/
def _validate_splits (transaction_id : String) (amount : ℚ) (splits : List SplitIn) :
    Except CreateTxnError Unit :=
  if splits ≠ [] then
    let split_total := (splits.map (fun s => s.amount)).sum
    if split_total ≠ amount then .error (.splitMismatch transaction_id amount split_total)
    else .ok ()
  else .ok ()

/-- `create_transaction(db, transaction_in)` (app/crud/transaction.py:43).
The `splits` key is popped from the data before the ORM `Transaction` object
is constructed, so when `_validate_splits(txn)` runs, the transient object's
split collection is still empty; the supplied splits (or the default
uncategorized split) are inserted only afterwards. -/
def create_transaction (db : DB) (inp : TransactionCreateIn) :
    Except CreateTxnError (DB × Txn) :=
  let splits_data := inp.splits
  let txn : Txn :=
    ⟨inp.id, inp.account_id, inp.amount, inp.posted, inp.description, none, inp.content_hash⟩
  match _validate_splits txn.id txn.amount [] with
  | .error e => .error e
  | .ok _ =>
    let db := { db with transactions := db.transactions ++ [txn] }
    let db :=
      match splits_data with
      | some (s :: rest) =>
          { db with splits := db.splits ++
              (s :: rest).map (fun si => (⟨txn.id, si.category_id, si.amount⟩ : Split)) }
      | _ =>
          { db with splits := db.splits ++ [(⟨txn.id, 0, txn.amount⟩ : Split)] }
    .ok (db, txn)

/-- A remote transaction record:
`{"id", "posted" (epoch seconds), "amount", "description"}`. -/
structure TxnRecord where
  id : String
  posted : ℤ
  amount : ℚ
  description : Option String
deriving DecidableEq

/-- `Decimal(str(amount))` for a JSON number: a decimal representation with
the same numeric value (17 fractional digits cover every value the pipeline
handles; `⌊q * 10^17⌋` written on the fraction's fields so it evaluates by
integer arithmetic). -/
def decOfRat (q : ℚ) : Dec := ⟨Int.fdiv (q.num * 10 ^ 17) (q.den : ℤ), 17⟩

/-- The content hash `process_transactions` computes for a record
(app/sync/simplefin.py:654-667): a `posted` of 0 is falsy, so it hashes as
`None`; an `amount` of 0 is falsy, so it hashes as `Decimal(0)`. -/
def recordHash (account_id : String) (r : TxnRecord) : String :=
  let posted := if r.posted ≠ 0 then some r.posted else none
  let amount := if r.amount ≠ 0 then decOfRat r.amount else (⟨0, 0⟩ : Dec)
  compute_transaction_hash account_id posted amount (r.description.getD "")

/-- The loop body of `process_transactions` (app/sync/simplefin.py:645-701):
skip when the transaction id already exists (global primary-key `db.get`),
else skip when some transaction of this account already stores the record's
content hash, else create the transaction with the hash. -/
def processTxnStep (account_id : String) (st : DB × ℕ) (txn : TxnRecord) : DB × ℕ :=
  if st.1.transactions.any (fun t => decide (t.id = txn.id)) then st
  else if st.1.transactions.any (fun t =>
      decide (t.account_id = account_id ∧
        t.content_hash = some (recordHash account_id txn))) then st
  else
    match create_transaction st.1
        ⟨txn.id, account_id, txn.amount, txn.posted, txn.description,
          some (recordHash account_id txn), none⟩ with
    | .ok (db2, _) => (db2, st.2 + 1)
    | .error _ => st

/-- `process_transactions(db, transactions, account_id)`
(app/sync/simplefin.py:629): dedup by id then by content hash, create
otherwise (remote records carry no splits, so the created transaction gets the
default uncategorized split).  Returns the new db and the number created.  The
loan-account category suggestion feeds only the unmodelled payee branch and is
omitted. -/
def process_transactions (db : DB) (transactions : List TxnRecord) (account_id : String) :
    DB × ℕ :=
  transactions.foldl (processTxnStep account_id) (db, 0)

/-- The transaction row `process_transactions` persists for a record. -/
def ingestedTxn (account_id : String) (r : TxnRecord) : Txn :=
  ⟨r.id, account_id, r.amount, r.posted, r.description, none, some (recordHash account_id r)⟩

/-- Some transaction of the account already stores the record's content
hash. -/
def HashCovered (db : DB) (account_id : String) (r : TxnRecord) : Prop :=
  ∃ t ∈ db.transactions, t.account_id = account_id ∧
    t.content_hash = some (recordHash account_id r)

/-- The record would be skipped: its id exists, or its content hash is
already stored for the account. -/
def RecordCovered (db : DB) (account_id : String) (r : TxnRecord) : Prop :=
  (∃ t ∈ db.transactions, t.id = r.id) ∨ HashCovered db account_id r

/-- Two remote transaction records with the same content (account-independent
natural-key fields), regardless of provider ids. -/
def SameContent (r r' : TxnRecord) : Prop :=
  r.posted = r'.posted ∧ r.amount = r'.amount ∧ r.description = r'.description

/-! ## SyncOrchestrator: initial-sync walk-back (`process_initial_sync`) -/

/-- The month-cap check `INITIAL_SYNC_MAX_MONTHS and months_synced >= INITIAL_SYNC_MAX_MONTHS`:
Python truthiness makes both `None` and `0` skip the cap. -/
def capHit (maxMonths : Option ℕ) (months_synced : ℕ) : Bool :=
  match maxMonths with
  | some m => decide (m ≠ 0 ∧ m ≤ months_synced)
  | none => false

/-- The while-loop of `process_initial_sync` (app/sync/simplefin.py:381-393)
with explicit fuel.  `fetch k` is the transaction count `process_sync_range`
returns for the k-th walk-back step; the state is
`(empty_months, months_synced)`.  Returns `some months_synced` when the loop
exits within `fuel` iterations and `none` when the fuel runs out first. -/
def initialSyncLoop (fetch : ℕ → ℕ) (maxMonths : Option ℕ) :
    ℕ → ℕ × ℕ → Option ℕ
  | 0, _ => none
  | fuel + 1, (empty_months, months_synced) =>
      if empty_months < 2 then
        if capHit maxMonths months_synced then some months_synced
        else
          let processed := fetch months_synced
          initialSyncLoop fetch maxMonths fuel
            (if processed = 0 then empty_months + 1 else 0, months_synced + 1)
      else some months_synced

/-- `process_initial_sync` starting from the current month with fresh
counters. -/
def process_initial_sync (fetch : ℕ → ℕ) (maxMonths : Option ℕ) (fuel : ℕ) : Option ℕ :=
  initialSyncLoop fetch maxMonths fuel (0, 0)

/-- Stop condition "two consecutive monthly steps processed zero transactions":
holds at month count `n` when steps `n-2` and `n-1` were both empty. -/
def twoEmptyAt (fetch : ℕ → ℕ) (n : ℕ) : Prop :=
  2 ≤ n ∧ fetch (n - 2) = 0 ∧ fetch (n - 1) = 0

instance (fetch : ℕ → ℕ) (n : ℕ) : Decidable (twoEmptyAt fetch n) := by
  unfold twoEmptyAt; infer_instance

/-- The length of the maximal all-zero run of fetch results immediately before
month `n`; the loop's `empty_months` counter tracks exactly this while it
runs. -/
def zrun (fetch : ℕ → ℕ) : ℕ → ℕ
  | 0 => 0
  | m + 1 => if fetch m = 0 then zrun fetch m + 1 else 0

/-- Either loop exit condition at month count `n`: two consecutive empty
months, or the configured month cap (Python-truthy) reached. -/
def stopCondAt (fetch : ℕ → ℕ) (maxMonths : Option ℕ) (n : ℕ) : Prop :=
  twoEmptyAt fetch n ∨ capHit maxMonths n = true

instance (fetch : ℕ → ℕ) (maxMonths : Option ℕ) (n : ℕ) :
    Decidable (stopCondAt fetch maxMonths n) := by
  unfold stopCondAt; infer_instance

instance {ε α : Type _} [DecidableEq ε] [DecidableEq α] : DecidableEq (Except ε α) :=
  fun a b =>
    match a, b with
    | .ok x, .ok y => decidable_of_iff (x = y) (by simp)
    | .error x, .error y => decidable_of_iff (x = y) (by simp)
    | .ok _, .error _ => .isFalse (fun h => Except.noConfusion h)
    | .error _, .ok _ => .isFalse (fun h => Except.noConfusion h)

/-! ## Statement vocabulary and concrete fixtures for the claims -/

/-- The conclusion of the merge-conservation claim (C1) for a successful merge
result `res`: with `cutoff = now - lookback_months*30 days`, every source
transaction older than the cutoff survives exactly once, reassigned to the
target account; every source transaction at or after the cutoff is gone; and
the counters count exactly those two sets. -/
def MergeConservationHolds (db : DB) (now : ℤ) (source_account_id target_account_id : String)
    (simplefin_lookback_months : ℕ) (res : DB × MergeStats) : Prop :=
  let cutoff := now - (simplefin_lookback_months : ℤ) * 30 * 86400
  let source_txns := db.transactions.filter (fun t => t.account_id = source_account_id)
  res.2.transactions_reassigned = source_txns.countP (fun t => decide (t.posted < cutoff)) ∧
  res.2.transactions_removed = source_txns.countP (fun t => decide (cutoff ≤ t.posted)) ∧
  (∀ t ∈ source_txns, t.posted < cutoff →
    res.1.transactions.filter (fun u => u.id = t.id) =
      [{ t with account_id := target_account_id }]) ∧
  (∀ t ∈ source_txns, cutoff ≤ t.posted →
    res.1.transactions.filter (fun u => u.id = t.id) = [])

def emptyDB : DB := ⟨[], [], [], [], []⟩

/-- Merge fixture: source `s` (older) and target `t` share org and name; the
source has one old transaction (posted 100) and one recent transaction
(posted 9000000) whose natural key matches target transaction `t2`. -/
def mergeDB : DB :=
  ⟨[⟨"s", "acct", "o", "USD", none, some 1⟩, ⟨"t", "acct", "o", "USD", none, some 2⟩],
   [⟨"s1", "s", 10, 100, some "old", none, none⟩,
    ⟨"s2", "s", 20, 9000000, some "recent", some 7, none⟩,
    ⟨"t2", "t", 20, 9000000, some "recent", none, none⟩],
   [⟨"s1", 3, 10⟩, ⟨"s2", 5, 20⟩, ⟨"t2", 0, 20⟩],
   [⟨"h1", "s"⟩],
   [⟨"s", 5, 0⟩]⟩

/-- Merge fixture with mismatching names (for the validation precondition). -/
def mergeDBmismatch : DB :=
  ⟨[⟨"s", "acct", "o", "USD", none, some 1⟩, ⟨"t", "other", "o", "USD", none, some 2⟩],
   [], [], [], []⟩

/-- Ingestion fixture for the idempotence counterexample: the database already
holds a transaction with provider id `"X"` but different content (and no
stored content hash). -/
def ingestDB : DB := ⟨[], [⟨"X", "A", 5, 100, some "d1", none, none⟩], [], [], []⟩

/-- First delivery: provider id `"X"` collides with the stored row. -/
def ingestRec : TxnRecord := ⟨"X", 700, 7, some "d2"⟩

/-- Re-delivery of the same content under a fresh provider id. -/
def ingestRecNewId : TxnRecord := ⟨"Y", 700, 7, some "d2"⟩

/-- A fresh two-record delivery (for the idempotence witness). -/
def ingestRecs : List TxnRecord := [⟨"r1", 500, 10, some "a"⟩, ⟨"r2", 600, 20, some "b"⟩]

/-- The same two records re-issued under different provider ids. -/
def ingestRecsNewIds : List TxnRecord := [⟨"q1", 500, 10, some "a"⟩, ⟨"q2", 600, 20, some "b"⟩]

/-- A create input whose two splits sum to 60 while the transaction amount is
100. -/
def splitMismatchInput : TransactionCreateIn :=
  ⟨"t1", "A", 100, 50, some "groceries", none, some [⟨1, 30⟩, ⟨2, 30⟩]⟩

/-- The transaction row `create_transaction` builds for `splitMismatchInput`. -/
def splitMismatchTxn : Txn := ⟨"t1", "A", 100, 50, some "groceries", none, none⟩

/-- Classifier fixture: no holdings, a keyword-free name, `balance = -5`, and a
remote `available-balance` of 100 (delivered, as always, under the hyphen
key). -/
def classifierRecord : AccountRecord :=
  ⟨"a1", "main acct", "o1", "USD", [], some (-5), none, some 100⟩

/-- Onboarding fixture: a brand-new remote account whose name contains the
bank keyword "checking". -/
def onboardRecord : AccountRecord :=
  ⟨"A1", "family checking", "o1", "USD", [], some 100, none, none⟩

/-- Duplicate-detection fixture: accounts `old` and `new` share `(org, name)`;
`old` has five transactions and `new` matches the first `k` of them by
`(posted, amount, description)`. -/
def dupDB (k : ℕ) : DB :=
  ⟨[⟨"old", "dup", "o", "USD", none, some 1⟩, ⟨"new", "dup", "o", "USD", none, some 2⟩],
   ((List.range 5).map (fun i =>
      (⟨s!"o{i}", "old", ((i + 1 : ℕ) : ℚ), ((100 + i : ℕ) : ℤ), some s!"d{i}", none, none⟩ : Txn))) ++
   ((List.range k).map (fun i =>
      (⟨s!"n{i}", "new", ((i + 1 : ℕ) : ℚ), ((100 + i : ℕ) : ℤ), some s!"d{i}", none, none⟩ : Txn))),
   [], [], []⟩

/-- Walk-back fixture: transactions only in the three most recent months. -/
def walkbackFetch (k : ℕ) : ℕ := if k < 3 then 5 else 0

/-- The older account of the duplicate-detection fixture. -/
def oldAcct : Account := ⟨"old", "dup", "o", "USD", none, some 1⟩

/-- The newer account of the duplicate-detection fixture. -/
def newAcct : Account := ⟨"new", "dup", "o", "USD", none, some 2⟩

/-! # Theorems -/

theorem hexChar_mem (n : ℕ) : SHA256.hexChar n ∈ SHA256.hexChars := by
  have h : n % 16 < SHA256.hexChars.length := by
    have h16 : n % 16 < 16 := Nat.mod_lt _ (by norm_num)
    have hlen : SHA256.hexChars.length = 16 := rfl
    rw [hlen]
    exact h16
  rw [SHA256.hexChar, List.getD_eq_getElem _ _ h]
  exact List.getElem_mem h

theorem wordHex_mem (w : ℕ) : ∀ c ∈ SHA256.wordHex w, c ∈ SHA256.hexChars := by
  intro c hc
  simp [SHA256.wordHex, SHA256.byteHex] at hc
  rcases hc with h | h | h | h | h | h | h | h <;> subst h <;> exact hexChar_mem _

theorem digestHex_length (hv : SHA256.Words8) : (SHA256.digestHex hv).length = 64 := by
  simp [SHA256.digestHex, SHA256.wordHex, SHA256.byteHex, String.length]

theorem digestHex_hexchars (hv : SHA256.Words8) :
    ∀ c ∈ (SHA256.digestHex hv).data, c ∈ SHA256.hexChars := by
  intro c hc
  simp only [SHA256.digestHex, List.mem_append] at hc
  rcases hc with ((((((h | h) | h) | h) | h) | h) | h) | h <;> exact wordHex_mem _ _ h

theorem sha256Hex_length (msg : List ℕ) : (SHA256.sha256Hex msg).length = 64 :=
  digestHex_length _

theorem sha256Hex_hexchars (msg : List ℕ) :
    ∀ c ∈ (SHA256.sha256Hex msg).data, c ∈ SHA256.hexChars :=
  digestHex_hexchars _

/-- Scaling invariance of truncating division: if `a₁ * d₂ = a₂ * d₁` (the
fractions `a₁/d₁` and `a₂/d₂` are equal) then the integer quotients agree. -/
theorem natDivScale (a₁ a₂ d₁ d₂ : ℕ) (h₁ : 0 < d₁) (h₂ : 0 < d₂)
    (h : a₁ * d₂ = a₂ * d₁) : a₁ / d₁ = a₂ / d₂ := by
  have s1 : d₂ * a₁ / (d₂ * d₁) = a₁ / d₁ := Nat.mul_div_mul_left a₁ d₁ h₂
  have s2 : a₂ * d₁ / (d₂ * d₁) = a₂ / d₂ := Nat.mul_div_mul_right a₂ d₂ h₁
  rw [← s1, ← s2]
  congr 1
  rw [Nat.mul_comm d₂ a₁]
  exact h

/-- Scaling invariance of truncating division together with the matching
relation on remainders. -/
theorem natDivModScale (a₁ a₂ d₁ d₂ : ℕ) (h₁ : 0 < d₁) (h₂ : 0 < d₂)
    (h : a₁ * d₂ = a₂ * d₁) : a₁ / d₁ = a₂ / d₂ ∧ a₁ % d₁ * d₂ = a₂ % d₂ * d₁ := by
  have hq : a₁ / d₁ = a₂ / d₂ := natDivScale a₁ a₂ d₁ d₂ h₁ h₂ h
  refine ⟨hq, ?_⟩
  have e₁ : a₁ % d₁ + d₁ * (a₁ / d₁) = a₁ := Nat.mod_add_div a₁ d₁
  have e₂ : a₂ % d₂ + d₂ * (a₂ / d₂) = a₂ := Nat.mod_add_div a₂ d₂
  rw [hq] at e₁
  zify at e₁ e₂ h ⊢
  linear_combination (d₂ : ℤ) * e₁ - (d₁ : ℤ) * e₂ + h

set_option maxRecDepth 8000 in
/-- `floatStrFrac` depends only on the numeric value of the fraction. -/
theorem floatStrFrac_congr (m₁ m₂ : ℤ) (d₁ d₂ : ℕ) (h₁ : 0 < d₁) (h₂ : 0 < d₂)
    (h : m₁ * d₂ = m₂ * d₁) : floatStrFrac m₁ d₁ = floatStrFrac m₂ d₂ := by
  have hd₁ : (0 : ℤ) < d₁ := by exact_mod_cast h₁
  have hd₂ : (0 : ℤ) < d₂ := by exact_mod_cast h₂
  have hsign : m₁ < 0 ↔ m₂ < 0 := by
    constructor
    · intro hm
      by_contra hh
      push_neg at hh
      have h2 : 0 ≤ m₂ * (d₁ : ℤ) := mul_nonneg hh (le_of_lt hd₁)
      have h1 : m₁ * (d₂ : ℤ) < 0 := mul_neg_of_neg_of_pos hm hd₂
      linarith [h, h1, h2]
    · intro hm
      by_contra hh
      push_neg at hh
      have h2 : 0 ≤ m₁ * (d₂ : ℤ) := mul_nonneg hh (le_of_lt hd₂)
      have h1 : m₂ * (d₁ : ℤ) < 0 := mul_neg_of_neg_of_pos hm hd₁
      linarith [h, h1, h2]
  have habs : m₁.natAbs * d₂ = m₂.natAbs * d₁ := by
    have h' := congrArg Int.natAbs h
    simpa [Int.natAbs_mul] using h'
  obtain ⟨hdiv, hmod⟩ := natDivModScale _ _ _ _ h₁ h₂ habs
  have hscaled : m₁.natAbs % d₁ * 10 ^ 17 * d₂ = m₂.natAbs % d₂ * 10 ^ 17 * d₁ := by
    calc m₁.natAbs % d₁ * 10 ^ 17 * d₂ = m₁.natAbs % d₁ * d₂ * 10 ^ 17 := by ring
    _ = m₂.natAbs % d₂ * d₁ * 10 ^ 17 := by rw [hmod]
    _ = m₂.natAbs % d₂ * 10 ^ 17 * d₁ := by ring
  have hfrac : m₁.natAbs % d₁ * 10 ^ 17 / d₁ = m₂.natAbs % d₂ * 10 ^ 17 / d₂ :=
    natDivScale _ _ _ _ h₁ h₂ hscaled
  have hsgn : (if m₁ < 0 then "-" else "") = (if m₂ < 0 then "-" else "") :=
    if_congr hsign rfl rfl
  simp only [floatStrFrac, fracRender]
  rw [hdiv, hfrac, hsgn]

/-- C10 — Hash stability: `compute_transaction_hash` is a pure function (equal
arguments give equal digests definitionally), its output is a 64-character
string over the hex alphabet, and two `Decimal` amounts with the same numeric
value — e.g. `12.50` and `12.5`, which differ only in insignificant decimal
formatting — yield the same digest, because the amount is normalized
(`float(amount)`, a function of the numeric value alone) before the signature
string is composed. -/
theorem compute_transaction_hash_stable (a : String) (t : Option ℤ) (d₁ d₂ : Dec)
    (desc : String) (hval : d₁.val = d₂.val) :
    compute_transaction_hash a t d₁ desc = compute_transaction_hash a t d₂ desc ∧
    (compute_transaction_hash a t d₁ desc).length = 64 ∧
    ∀ c ∈ (compute_transaction_hash a t d₁ desc).data, c ∈ SHA256.hexChars := by
  refine ⟨?_, ?_, ?_⟩
  · have hpow₁ : (0 : ℚ) < (10 : ℚ) ^ d₁.scale := by positivity
    have hpow₂ : (0 : ℚ) < (10 : ℚ) ^ d₂.scale := by positivity
    have hcross : d₁.mant * (10 ^ d₂.scale : ℕ) = d₂.mant * (10 ^ d₁.scale : ℕ) := by
      have hv := hval
      unfold Dec.val at hv
      rw [div_eq_div_iff (by positivity) (by positivity)] at hv
      exact_mod_cast hv
    unfold compute_transaction_hash
    rw [floatStrFrac_congr d₁.mant d₂.mant (10 ^ d₁.scale) (10 ^ d₂.scale)
      (by positivity) (by positivity) hcross]
  · exact sha256Hex_length _
  · exact sha256Hex_hexchars _

/-- Witness for C10 at `12.50` vs `12.5`. -/
theorem compute_transaction_hash_stable_witness :
    compute_transaction_hash "acc1" (some 1700000000) ⟨1250, 2⟩ "coffee" =
      compute_transaction_hash "acc1" (some 1700000000) ⟨125, 1⟩ "coffee" ∧
    (compute_transaction_hash "acc1" (some 1700000000) ⟨1250, 2⟩ "coffee").length = 64 ∧
    ∀ c ∈ (compute_transaction_hash "acc1" (some 1700000000) ⟨1250, 2⟩ "coffee").data,
      c ∈ SHA256.hexChars :=
  compute_transaction_hash_stable "acc1" (some 1700000000) ⟨1250, 2⟩ ⟨125, 1⟩ "coffee"
    (by norm_num [Dec.val])

/-- C4 — code-bug evidence: on a remote record with no holdings, a keyword-free
name, `balance = -5` and a delivered `available-balance` of `100`,
`classify_account` returns `credit_card` because it reads the underscore key
`"available_balance"` (always absent in remote payloads, which deliver the
hyphenated `"available-balance"`), while the cascade as specified — reading the
remote available-balance field — returns null. -/
theorem classify_account_hyphen_divergence :
    classify_account classifierRecord = some AccountType.credit_card ∧
    classify_account_spec classifierRecord = none := by
  exact ⟨by decide, by decide⟩

/-- C9 — code-bug evidence: processing a brand-new remote account named
"family checking" (which the classifier maps to `bank`) creates the account
with `account_type = None`: the classification is stored into the local `data`,
but the create branch rebuilds `data = AccountCreate(**acct)` from the raw
record (and the update branch passes `AccountUpdate(**acct)`), discarding it. -/
theorem process_accounts_classification_discarded :
    (process_accounts emptyDB [onboardRecord] "o1" 1000).accounts =
      [⟨"A1", "family checking", "o1", "USD", none, some 1000⟩] ∧
    classify_account { onboardRecord with org_id := "o1" } = some AccountType.bank := by
  exact ⟨by decide, by decide⟩

/-- C3 — code-bug evidence: a create input whose splits sum to 60 against a
transaction amount of 100 succeeds and persists both the transaction row and
the two mismatched split rows; `_validate_splits` runs against the transient
ORM object, whose split collection is still empty because the `splits` key was
popped before construction, so the check never fires. -/
theorem create_transaction_split_mismatch_persists :
    create_transaction emptyDB splitMismatchInput =
      .ok ({ accounts := [], transactions := [splitMismatchTxn],
             splits := [⟨"t1", 1, 30⟩, ⟨"t1", 2, 30⟩], holdings := [], balances := [] },
           splitMismatchTxn) ∧
    ((splitMismatchInput.splits.getD []).map SplitIn.amount).sum ≠ splitMismatchInput.amount := by
  refine ⟨by decide, ?_⟩
  show ((splitMismatchInput.splits.getD []).map SplitIn.amount).sum ≠ splitMismatchInput.amount
  norm_num [splitMismatchInput]

/-- `create_transaction` on a record-shaped input (no splits key) always
succeeds, appending the transaction row and its default uncategorized
split. -/
theorem create_transaction_ingest (db : DB) (a : String) (r : TxnRecord) :
    create_transaction db
        ⟨r.id, a, r.amount, r.posted, r.description, some (recordHash a r), none⟩ =
      .ok ({ db with
              transactions := db.transactions ++ [ingestedTxn a r]
              splits := db.splits ++ [⟨r.id, 0, r.amount⟩] }, ingestedTxn a r) := rfl

/-- A step on a covered record is a no-op. -/
theorem processTxnStep_covered (a : String) (st : DB × ℕ) (r : TxnRecord)
    (h : RecordCovered st.1 a r) : processTxnStep a st r = st := by
  unfold processTxnStep
  by_cases hid : st.1.transactions.any (fun t => decide (t.id = r.id)) = true
  · rw [if_pos hid]
  · rw [if_neg hid]
    have hhash : st.1.transactions.any (fun t =>
        decide (t.account_id = a ∧ t.content_hash = some (recordHash a r))) = true := by
      rcases h with hl | hr
      · exact absurd (List.any_eq_true.mpr (by
          obtain ⟨t, ht, hte⟩ := hl
          exact ⟨t, ht, by simpa using hte⟩)) hid
      · obtain ⟨t, ht, h1, h2⟩ := hr
        exact List.any_eq_true.mpr ⟨t, ht, by simp [h1, h2]⟩
    rw [if_pos hhash]

/-- The ingestion loop only appends transactions, and touches no other
table except splits (also append-only). -/
theorem processTxnFold_mono (a : String) (rs : List TxnRecord) (st : DB × ℕ) :
    ∃ new, (rs.foldl (processTxnStep a) st).1.transactions = st.1.transactions ++ new := by
  induction rs generalizing st with
  | nil => exact ⟨[], by simp⟩
  | cons r rs ih =>
    rw [List.foldl_cons]
    obtain ⟨new, hnew⟩ := ih (processTxnStep a st r)
    rw [hnew]
    unfold processTxnStep
    by_cases hid : st.1.transactions.any (fun t => decide (t.id = r.id)) = true
    · rw [if_pos hid]; exact ⟨new, rfl⟩
    · rw [if_neg hid]
      by_cases hh : st.1.transactions.any (fun t =>
          decide (t.account_id = a ∧ t.content_hash = some (recordHash a r))) = true
      · rw [if_pos hh]; exact ⟨new, rfl⟩
      · rw [if_neg hh, create_transaction_ingest]
        exact ⟨[ingestedTxn a r] ++ new, by simp⟩

/-- Covering facts survive later ingestion. -/
theorem recordCovered_mono (a : String) (rs : List TxnRecord) (st : DB × ℕ) (r : TxnRecord)
    (h : RecordCovered st.1 a r) :
    RecordCovered (rs.foldl (processTxnStep a) st).1 a r := by
  obtain ⟨new, hnew⟩ := processTxnFold_mono a rs st
  rcases h with ⟨t, ht, he⟩ | ⟨t, ht, he⟩
  · exact Or.inl ⟨t, by rw [hnew]; exact List.mem_append_left _ ht, he⟩
  · exact Or.inr ⟨t, by rw [hnew]; exact List.mem_append_left _ ht, he⟩

/-- After one run, every processed record is covered (by id or by hash). -/
theorem processTxnFold_covers (a : String) (rs : List TxnRecord) (st : DB × ℕ) :
    ∀ r ∈ rs, RecordCovered (rs.foldl (processTxnStep a) st).1 a r := by
  induction rs generalizing st with
  | nil => intro r hr; cases hr
  | cons r₀ rs ih =>
    intro r hr
    rw [List.foldl_cons]
    rcases List.mem_cons.mp hr with hr₀ | hrs
    · subst hr₀
      apply recordCovered_mono
      unfold processTxnStep
      by_cases hid : st.1.transactions.any (fun t => decide (t.id = r.id)) = true
      · rw [if_pos hid]
        obtain ⟨t, ht, hte⟩ := List.any_eq_true.mp hid
        exact Or.inl ⟨t, ht, by simpa using hte⟩
      · rw [if_neg hid]
        by_cases hh : st.1.transactions.any (fun t =>
            decide (t.account_id = a ∧ t.content_hash = some (recordHash a r))) = true
        · rw [if_pos hh]
          obtain ⟨t, ht, hte⟩ := List.any_eq_true.mp hh
          simp only [decide_eq_true_eq] at hte
          exact Or.inr ⟨t, ht, hte⟩
        · rw [if_neg hh, create_transaction_ingest]
          exact Or.inl ⟨ingestedTxn a r, by simp, rfl⟩
    · exact ih (processTxnStep a st r₀) r hrs

/-- After one run of a fresh delivery (pairwise-distinct record ids, none
already present), every record's content hash is stored for the account. -/
theorem processTxnFold_hash_covers (a : String) (rs : List TxnRecord) (st : DB × ℕ)
    (hnd : (rs.map TxnRecord.id).Nodup)
    (hfresh : ∀ r ∈ rs, ∀ t ∈ st.1.transactions, t.id ≠ r.id) :
    ∀ r ∈ rs, HashCovered (rs.foldl (processTxnStep a) st).1 a r := by
  induction rs generalizing st with
  | nil => intro r hr; cases hr
  | cons r₀ rs ih =>
    rw [List.map_cons, List.nodup_cons] at hnd
    have hid : st.1.transactions.any (fun t => decide (t.id = r₀.id)) = false := by
      rw [List.any_eq_false]
      intro t ht
      simpa using hfresh r₀ (List.mem_cons_self _ _) t ht
    have hash_mono : ∀ (st' : DB × ℕ) r, HashCovered st'.1 a r →
        HashCovered (rs.foldl (processTxnStep a) st').1 a r := by
      intro st' r h
      obtain ⟨new, hnew⟩ := processTxnFold_mono a rs st'
      obtain ⟨t, ht, he⟩ := h
      exact ⟨t, by rw [hnew]; exact List.mem_append_left _ ht, he⟩
    intro r hr
    rw [List.foldl_cons]
    rcases List.mem_cons.mp hr with hr₀ | hrs
    · subst hr₀
      apply hash_mono
      unfold processTxnStep
      rw [hid]
      simp only [Bool.false_eq_true, if_false]
      by_cases hh : st.1.transactions.any (fun t =>
          decide (t.account_id = a ∧ t.content_hash = some (recordHash a r))) = true
      · rw [if_pos hh]
        obtain ⟨t, ht, hte⟩ := List.any_eq_true.mp hh
        simp only [decide_eq_true_eq] at hte
        exact ⟨t, ht, hte⟩
      · rw [if_neg hh, create_transaction_ingest]
        exact ⟨ingestedTxn a r, by simp, rfl, rfl⟩
    · refine ih (processTxnStep a st r₀) hnd.2 ?_ r hrs
      intro x hx t ht
      unfold processTxnStep at ht
      rw [hid] at ht
      simp only [Bool.false_eq_true, if_false] at ht
      by_cases hh : st.1.transactions.any (fun t =>
          decide (t.account_id = a ∧ t.content_hash = some (recordHash a r₀))) = true
      · rw [if_pos hh] at ht
        exact hfresh x (List.mem_cons_of_mem _ hx) t ht
      · rw [if_neg hh, create_transaction_ingest] at ht
        rcases List.mem_append.mp ht with hold | hnewm
        · exact hfresh x (List.mem_cons_of_mem _ hx) t hold
        · have : t = ingestedTxn a r₀ := by simpa using hnewm
          rw [this]
          show r₀.id ≠ x.id
          intro hcontra
          exact hnd.1 (hcontra ▸ List.mem_map_of_mem TxnRecord.id hx)

/-- A run in which every record is already covered creates nothing and leaves
the state untouched. -/
theorem processTxnFold_allCovered (a : String) (rs : List TxnRecord) (st : DB × ℕ)
    (h : ∀ r ∈ rs, RecordCovered st.1 a r) :
    rs.foldl (processTxnStep a) st = st := by
  induction rs generalizing st with
  | nil => rfl
  | cons r rs ih =>
    rw [List.foldl_cons, processTxnStep_covered a st r (h r (List.mem_cons_self _ _))]
    exact ih st (fun x hx => h x (List.mem_cons_of_mem _ hx))

/-- Records with the same content hash identically. -/
theorem recordHash_content (a : String) (r r' : TxnRecord) (h : SameContent r r') :
    recordHash a r = recordHash a r' := by
  obtain ⟨h1, h2, h3⟩ := h
  unfold recordHash
  rw [h1, h2, h3]

/-- C2 (amended) — Idempotent re-ingestion: re-running `process_transactions`
on the same list creates zero transactions, returns 0 and leaves the database
unchanged, for every database state and list.  If the second delivery instead
carries different provider transaction IDs but identical posted, amount and
description for each record, it also creates zero — provided the first
delivery's record ids are pairwise distinct and not already present in the
database (the content-hash lookup then skips every re-delivered record). -/
theorem process_transactions_idempotent (db : DB) (rs rs' : List TxnRecord) (a : String)
    (hnd : (rs.map TxnRecord.id).Nodup)
    (hfresh : ∀ r ∈ rs, ∀ t ∈ db.transactions, t.id ≠ r.id)
    (hsame : List.Forall₂ SameContent rs rs') :
    (∀ (db₀ : DB) (rs₀ : List TxnRecord),
      process_transactions (process_transactions db₀ rs₀ a).1 rs₀ a =
        ((process_transactions db₀ rs₀ a).1, 0)) ∧
    process_transactions (process_transactions db rs a).1 rs' a =
      ((process_transactions db rs a).1, 0) := by
  constructor
  · intro db₀ rs₀
    apply processTxnFold_allCovered
    intro r hr
    exact processTxnFold_covers a rs₀ (db₀, 0) r hr
  · apply processTxnFold_allCovered
    have hcov := processTxnFold_hash_covers a rs (db, 0) hnd hfresh
    intro r' hr'
    have pair : ∀ (l l' : List TxnRecord), List.Forall₂ SameContent l l' →
        (∀ r ∈ l, HashCovered (process_transactions db rs a).1 a r) →
        ∀ x ∈ l', RecordCovered (process_transactions db rs a).1 a x := by
      intro l l' hf
      induction hf with
      | nil => intro _ x hx; cases hx
      | cons hrel htail ih =>
        intro hcv x hx
        rcases List.mem_cons.mp hx with hx0 | hxs
        · subst hx0
          obtain ⟨t, ht, h1, h2⟩ := hcv _ (List.mem_cons_self _ _)
          refine Or.inr ⟨t, ht, h1, ?_⟩
          rw [h2, recordHash_content a _ _ hrel]
        · exact ih (fun r hr => hcv r (List.mem_cons_of_mem _ hr)) x hxs
    exact pair rs rs' hsame (fun r hr => hcov r hr) r' hr'

/-- Witness for C2 (amended): a fresh two-record delivery into an empty
database; both the same-list re-run and the changed-id re-delivery create
zero and leave the database unchanged. -/
theorem process_transactions_idempotent_witness :
    (∀ (db₀ : DB) (rs₀ : List TxnRecord),
      process_transactions (process_transactions db₀ rs₀ "A").1 rs₀ "A" =
        ((process_transactions db₀ rs₀ "A").1, 0)) ∧
    process_transactions (process_transactions emptyDB ingestRecs "A").1 ingestRecsNewIds "A" =
      ((process_transactions emptyDB ingestRecs "A").1, 0) :=
  process_transactions_idempotent emptyDB ingestRecs ingestRecsNewIds "A"
    (by decide) (by decide)
    (by refine List.Forall₂.cons ?_ (List.Forall₂.cons ?_ List.Forall₂.nil) <;>
      exact ⟨rfl, rfl, rfl⟩)

/-- C2 — counterexample: over an arbitrary pre-existing database state the
claim fails.  Here the database already holds a transaction with provider id
"X" of different content (and no stored hash); the first delivery of record
"X" is skipped by the id fast path (creating nothing and storing no hash), so
re-delivering the identical content under fresh id "Y" creates a transaction:
the second run returns 1, not 0. -/
theorem process_transactions_rehash_counterexample :
    (process_transactions ingestDB [ingestRec] "A").2 = 0 ∧
    (process_transactions (process_transactions ingestDB [ingestRec] "A").1
        [ingestRecNewId] "A").2 = 1 := by
  exact ⟨rfl, rfl⟩

/-- C5 — counterexample: with `preserve_categorization = False`, the returned
`transactions_matched` is 0 even though exactly one source transaction at or
after the cutoff matches a target transaction by natural key — the counter is
incremented only inside the `if target_txn and preserve_categorization` branch,
not "regardless of whether the categorization copy happened". -/
theorem merge_matched_not_counted_counterexample :
    (merge_accounts mergeDB 9000000 "s" "t" false 1).toOption.map
        (fun p => p.2.transactions_matched) = some 0 ∧
    (mergeDB.transactions.filter (fun t => t.account_id = "s")).countP
        (fun s => decide ((9000000 - 30 * 86400 : ℤ) ≤ s.posted ∧
          ∃ t ∈ mergeDB.transactions.filter (fun t => t.account_id = "t"),
            t.key = s.key)) = 1 := by
  exact ⟨rfl, by decide⟩

/-- C8 — Merge preconditions: when either account id has no row, merge fails
with the not-found `ValueError` ("Source or target account not found"); when
both exist but org_id or name differ, it fails with the validation
`ValueError` ("Can only merge accounts with matching org_id and name").  Both
checks precede every mutation: in this embedding an error result is returned
before any state is produced, so accounts, transactions, splits and holdings
are untouched. -/
theorem merge_preconditions (db : DB) (now : ℤ) (src tgt : String)
    (preserve : Bool) (lb : ℕ) :
    (((∀ a ∈ db.accounts, a.id ≠ src) ∨ (∀ a ∈ db.accounts, a.id ≠ tgt)) →
      merge_accounts db now src tgt preserve lb = .error .notFound) ∧
    (∀ sa ta, (db.accounts.filter (fun a => a.id = src)).head? = some sa →
      (db.accounts.filter (fun a => a.id = tgt)).head? = some ta →
      (sa.org_id ≠ ta.org_id ∨ sa.name ≠ ta.name) →
      merge_accounts db now src tgt preserve lb = .error .validation) := by
  constructor
  · intro h
    rcases h with h | h
    · have hf : db.accounts.filter (fun a => decide (a.id = src)) = [] := by
        rw [List.filter_eq_nil_iff]
        intro a ha
        simpa using h a ha
      unfold merge_accounts
      rw [hf]
      rfl
    · have hf : db.accounts.filter (fun a => decide (a.id = tgt)) = [] := by
        rw [List.filter_eq_nil_iff]
        intro a ha
        simpa using h a ha
      unfold merge_accounts
      rw [hf]
      cases hs : (db.accounts.filter (fun a => decide (a.id = src))).head? <;> rfl
  · intro sa ta hsa hta hne
    unfold merge_accounts
    rw [hsa, hta]
    simp only [if_pos hne]

/-- A successful merge result is the result of `mergeBody`. -/
theorem merge_accounts_ok (db : DB) (now : ℤ) (src tgt : String) (preserve : Bool) (lb : ℕ)
    (res : DB × MergeStats)
    (hok : merge_accounts db now src tgt preserve lb = .ok res) :
    res = mergeBody db now src tgt preserve lb := by
  unfold merge_accounts at hok
  cases hsrc : (db.accounts.filter (fun a => decide (a.id = src))).head? with
  | none => rw [hsrc] at hok; cases hok
  | some sa =>
    cases htgt : (db.accounts.filter (fun a => decide (a.id = tgt))).head? with
    | none => rw [hsrc, htgt] at hok; cases hok
    | some ta =>
      rw [hsrc, htgt] at hok
      change (if sa.org_id ≠ ta.org_id ∨ sa.name ≠ ta.name then
          Except.error MergeError.validation
        else Except.ok (mergeBody db now src tgt preserve lb)) = Except.ok res at hok
      by_cases hcond : sa.org_id ≠ ta.org_id ∨ sa.name ≠ ta.name
      · rw [if_pos hcond] at hok; cases hok
      · rw [if_neg hcond] at hok
        exact (Except.ok.injEq _ _).mp hok.symm

/-- Per-step effect of the merge loop on the statistics record: the deltas
depend only on the source transaction and the static target lookup, never on
the mutable session state. -/
theorem mergeTxnStep_stats (targets : List Txn) (preserve : Bool) (cutoff : ℤ)
    (tgt : String) (st : MergeLoopState) (s : Txn) :
    (mergeTxnStep targets preserve cutoff tgt st s).stats =
      if cutoff ≤ s.posted then
        { st.stats with
          transactions_removed := st.stats.transactions_removed + 1,
          transactions_matched := st.stats.transactions_matched +
            (if preserve ∧ (targetGet targets s.key).isSome then 1 else 0) }
      else
        { st.stats with transactions_reassigned := st.stats.transactions_reassigned + 1 } := by
  unfold mergeTxnStep
  by_cases hp : cutoff ≤ s.posted
  · rw [if_pos hp, if_pos hp]
    cases htg : targetGet targets s.key with
    | none => simp [htg]
    | some t => cases hpre : preserve <;> simp [htg, hpre]
  · rw [if_neg hp, if_neg hp]

/-- The statistics after the merge loop: each counter counts its defining
predicate over the processed source transactions. -/
theorem mergeFold_stats (targets : List Txn) (preserve : Bool) (cutoff : ℤ) (tgt : String)
    (R : List Txn) (st : MergeLoopState) :
    (R.foldl (mergeTxnStep targets preserve cutoff tgt) st).stats =
      { transactions_reassigned := st.stats.transactions_reassigned +
          R.countP (fun s => decide (s.posted < cutoff)),
        transactions_removed := st.stats.transactions_removed +
          R.countP (fun s => decide (cutoff ≤ s.posted)),
        transactions_matched := st.stats.transactions_matched +
          (if preserve then
            R.countP (fun s => decide (cutoff ≤ s.posted ∧ (targetGet targets s.key).isSome))
          else 0),
        holdings_reassigned := st.stats.holdings_reassigned,
        source_account_deleted := st.stats.source_account_deleted } := by
  induction R generalizing st with
  | nil => simp
  | cons s R ih =>
    rw [List.foldl_cons, ih, mergeTxnStep_stats]
    by_cases hp : cutoff ≤ s.posted
    · have hp' : ¬ s.posted < cutoff := not_lt.mpr hp
      rw [if_pos hp]
      by_cases hm : (targetGet targets s.key).isSome
      · cases hpre : preserve <;>
          simp [List.countP_cons, hp, hp', hm, hpre] <;> try omega
      · cases hpre : preserve <;>
          simp [List.countP_cons, hp, hp', hm, hpre] <;> try omega
    · have hp' : s.posted < cutoff := not_le.mp hp
      rw [if_neg hp]
      cases hpre : preserve <;>
        simp [List.countP_cons, hp, hp', hpre] <;> try omega

/-- `targetGet` (dict lookup by natural key) succeeds exactly when some target
transaction carries the key. -/
theorem targetGet_isSome_iff (targets : List Txn) (k : ℤ × ℚ × String) :
    (targetGet targets k).isSome = true ↔ ∃ t ∈ targets, t.key = k := by
  have main : ∀ (l : List Txn) (acc : Option Txn),
      (l.foldl (fun acc t => if t.key = k then some t else acc) acc).isSome = true ↔
        acc.isSome = true ∨ ∃ t ∈ l, t.key = k := by
    intro l
    induction l with
    | nil => simp
    | cons t l ih =>
      intro acc
      rw [List.foldl_cons, ih]
      by_cases hk : t.key = k
      · simp [hk]
      · simp [hk]
        try tauto
  have h := main targets none
  simp only [targetGet]
  rw [h]
  simp

/-- `targetGet` returns an element of the list, carrying the key. -/
theorem targetGet_mem (targets : List Txn) (k : ℤ × ℚ × String) (t : Txn)
    (h : targetGet targets k = some t) : t ∈ targets ∧ t.key = k := by
  have main : ∀ (l : List Txn) (acc : Option Txn),
      (l.foldl (fun acc t => if t.key = k then some t else acc) acc) = some t →
        acc = some t ∨ (t ∈ l ∧ t.key = k) := by
    intro l
    induction l with
    | nil => intro acc h; exact Or.inl h
    | cons u l ih =>
      intro acc h
      rw [List.foldl_cons] at h
      rcases ih _ h with hacc | hmem
      · by_cases hk : u.key = k
        · rw [if_pos hk] at hacc
          cases hacc
          exact Or.inr ⟨List.mem_cons_self _ _, hk⟩
        · rw [if_neg hk] at hacc
          exact Or.inl hacc
      · exact Or.inr ⟨List.mem_cons_of_mem _ hmem.1, hmem.2⟩
  rcases main targets none h with hacc | hmem
  · cases hacc
  · exact hmem

/-- Filters commute. -/
theorem filterComm {α : Type _} (p q : α → Bool) (l : List α) :
    (l.filter p).filter q = (l.filter q).filter p := by
  induction l with
  | nil => rfl
  | cons a l ih => by_cases hp : p a <;> by_cases hq : q a <;> simp [hp, hq, ih]

/-- Filtering for one id after filtering another id away changes nothing. -/
theorem filter_ne_then_eq (l : List Txn) (i j : String) (hij : i ≠ j) :
    (l.filter (fun t => decide (t.id ≠ j))).filter (fun u => decide (u.id = i)) =
      l.filter (fun u => decide (u.id = i)) := by
  rw [filterComm]
  apply List.filter_eq_self.mpr
  intro a ha
  have := List.of_mem_filter ha
  simp only [decide_eq_true_eq] at this
  simp [this, hij]

/-- Deleting an id then filtering for it yields nothing. -/
theorem filter_ne_then_eq_self (l : List Txn) (j : String) :
    (l.filter (fun t => decide (t.id ≠ j))).filter (fun u => decide (u.id = j)) = [] := by
  apply List.filter_eq_nil_iff.mpr
  intro a ha
  have := List.of_mem_filter ha
  simpa using this

/-- An id-preserving map commutes with filtering by id. -/
theorem filter_map_id_comm (g : Txn → Txn) (hg : ∀ x, (g x).id = x.id) (i : String)
    (l : List Txn) :
    (l.map g).filter (fun u => decide (u.id = i)) =
      (l.filter (fun u => decide (u.id = i))).map g := by
  induction l with
  | nil => rfl
  | cons a l ih =>
    simp only [List.map_cons, List.filter_cons, hg a]
    by_cases ha : a.id = i
    · simp [ha, ih]
    · simp [ha, ih]

/-- An update map keyed to a different id leaves the id's entries unchanged. -/
theorem filter_map_other (l : List Txn) (f : Txn → Txn) (hf : ∀ x, (f x).id = x.id)
    (i j : String) (hij : i ≠ j) :
    (l.map (fun x => if x.id = j then f x else x)).filter (fun u => decide (u.id = i)) =
      l.filter (fun u => decide (u.id = i)) := by
  rw [filter_map_id_comm _ (fun x => by by_cases hx : x.id = j <;> simp [hx, hf]) i]
  have : ∀ a ∈ l.filter (fun u => decide (u.id = i)),
      (if a.id = j then f a else a) = a := by
    intro a ha
    have hai := List.of_mem_filter ha
    simp only [decide_eq_true_eq] at hai
    rw [if_neg (by rw [hai]; exact hij)]
  calc (l.filter (fun u => decide (u.id = i))).map (fun x => if x.id = j then f x else x)
      = (l.filter (fun u => decide (u.id = i))).map id := List.map_congr_left this
  _ = l.filter (fun u => decide (u.id = i)) := List.map_id _

/-- One merge-loop step leaves the entries of any id other than the processed
source transaction's (and any target transaction's) untouched. -/
theorem mergeTxnStep_filter_other (targets : List Txn) (preserve : Bool) (cutoff : ℤ)
    (tgt : String) (st : MergeLoopState) (s : Txn) (i : String)
    (his : i ≠ s.id) (hit : ∀ t ∈ targets, t.id ≠ i) :
    (mergeTxnStep targets preserve cutoff tgt st s).transactions.filter
        (fun u => decide (u.id = i)) =
      st.transactions.filter (fun u => decide (u.id = i)) := by
  unfold mergeTxnStep
  by_cases hp : cutoff ≤ s.posted
  · rw [if_pos hp]
    cases htg : targetGet targets s.key with
    | none =>
      show ((st.transactions.filter (fun x => decide (x.id ≠ s.id))).filter
          (fun u => decide (u.id = i))) = _
      exact filter_ne_then_eq _ _ _ his
    | some t =>
      cases hpre : preserve
      · show ((st.transactions.filter (fun x => decide (x.id ≠ s.id))).filter
            (fun u => decide (u.id = i))) = _
        exact filter_ne_then_eq _ _ _ his
      · show (((if s.payee_id.getD 0 ≠ 0 then
              st.transactions.map (fun u =>
                if u.id = t.id then { u with payee_id := s.payee_id } else u)
            else st.transactions).filter (fun x => decide (x.id ≠ s.id))).filter
            (fun u => decide (u.id = i))) = _
        by_cases hpay : s.payee_id.getD 0 ≠ 0
        · rw [if_pos hpay, filter_ne_then_eq _ _ _ his]
          exact filter_map_other st.transactions
            (fun u => { u with payee_id := s.payee_id }) (fun x => rfl) i t.id
            (fun hcontra => hit t (targetGet_mem targets s.key t htg).1 (hcontra ▸ rfl))
        · rw [if_neg hpay]
          exact filter_ne_then_eq _ _ _ his
  · rw [if_neg hp]
    show ((st.transactions.map (fun u =>
        if u.id = s.id then { u with account_id := tgt } else u)).filter
        (fun u => decide (u.id = i))) = _
    exact filter_map_other st.transactions
      (fun u => { u with account_id := tgt }) (fun x => rfl) i s.id his

/-- One merge-loop step on a source transaction `s` (present exactly once):
at or after the cutoff `s` is deleted; before the cutoff it is reassigned to
the target account. -/
theorem mergeTxnStep_filter_self (targets : List Txn) (preserve : Bool) (cutoff : ℤ)
    (tgt : String) (st : MergeLoopState) (s : Txn)
    (hself : st.transactions.filter (fun u => decide (u.id = s.id)) = [s]) :
    (mergeTxnStep targets preserve cutoff tgt st s).transactions.filter
        (fun u => decide (u.id = s.id)) =
      if cutoff ≤ s.posted then [] else [{ s with account_id := tgt }] := by
  unfold mergeTxnStep
  by_cases hp : cutoff ≤ s.posted
  · rw [if_pos hp, if_pos hp]
    cases htg : targetGet targets s.key with
    | none =>
      show ((st.transactions.filter (fun x => decide (x.id ≠ s.id))).filter
          (fun u => decide (u.id = s.id))) = _
      exact filter_ne_then_eq_self _ _
    | some t =>
      cases hpre : preserve
      · show ((st.transactions.filter (fun x => decide (x.id ≠ s.id))).filter
            (fun u => decide (u.id = s.id))) = _
        exact filter_ne_then_eq_self _ _
      · show (((if s.payee_id.getD 0 ≠ 0 then
              st.transactions.map (fun u =>
                if u.id = t.id then { u with payee_id := s.payee_id } else u)
            else st.transactions).filter (fun x => decide (x.id ≠ s.id))).filter
            (fun u => decide (u.id = s.id))) = _
        exact filter_ne_then_eq_self _ _
  · rw [if_neg hp, if_neg hp]
    show ((st.transactions.map (fun u =>
        if u.id = s.id then { u with account_id := tgt } else u)).filter
        (fun u => decide (u.id = s.id))) = _
    rw [filter_map_id_comm _ (fun x => by by_cases hx : x.id = s.id <;> simp [hx]) s.id,
      hself]
    simp

/-- Over the whole merge loop, entries of an id that is neither a remaining
source transaction's nor a target transaction's are untouched. -/
theorem mergeFold_filter_other (targets : List Txn) (preserve : Bool) (cutoff : ℤ)
    (tgt : String) (R : List Txn) (st : MergeLoopState) (i : String)
    (hiR : ∀ s ∈ R, s.id ≠ i) (hit : ∀ t ∈ targets, t.id ≠ i) :
    (R.foldl (mergeTxnStep targets preserve cutoff tgt) st).transactions.filter
        (fun u => decide (u.id = i)) =
      st.transactions.filter (fun u => decide (u.id = i)) := by
  induction R generalizing st with
  | nil => rfl
  | cons s R ih =>
    rw [List.foldl_cons, ih _ (fun x hx => hiR x (List.mem_cons_of_mem _ hx)),
      mergeTxnStep_filter_other targets preserve cutoff tgt st s i
        (fun h => hiR s (List.mem_cons_self _ _) h.symm) hit]

/-- The merge loop processes each source transaction exactly once: afterwards
a source transaction at or after the cutoff is gone, and one before the cutoff
survives exactly once, reassigned to the target account. -/
theorem mergeFold_filter_main (targets : List Txn) (preserve : Bool) (cutoff : ℤ)
    (tgt : String) (R : List Txn) (st : MergeLoopState)
    (hnd : (R.map Txn.id).Nodup)
    (hRt : ∀ s ∈ R, ∀ t ∈ targets, t.id ≠ s.id)
    (hself : ∀ s ∈ R, st.transactions.filter (fun u => decide (u.id = s.id)) = [s]) :
    ∀ s ∈ R, (R.foldl (mergeTxnStep targets preserve cutoff tgt) st).transactions.filter
        (fun u => decide (u.id = s.id)) =
      if cutoff ≤ s.posted then [] else [{ s with account_id := tgt }] := by
  induction R generalizing st with
  | nil => intro s hs; cases hs
  | cons s₀ R ih =>
    have hnd' : (R.map Txn.id).Nodup := by
      rw [List.map_cons] at hnd
      exact hnd.of_cons
    have hs₀R : ∀ x ∈ R, x.id ≠ s₀.id := by
      intro x hx hcontra
      rw [List.map_cons] at hnd
      exact (List.nodup_cons.mp hnd).1 (hcontra ▸ List.mem_map_of_mem Txn.id hx)
    intro s hs
    rw [List.foldl_cons]
    rcases List.mem_cons.mp hs with hseq | hsR
    · subst hseq
      rw [mergeFold_filter_other targets preserve cutoff tgt R _ s.id hs₀R
        (fun t ht => hRt s (List.mem_cons_self _ _) t ht)]
      exact mergeTxnStep_filter_self targets preserve cutoff tgt st s
        (hself s (List.mem_cons_self _ _))
    · refine ih _ hnd' (fun x hx => hRt x (List.mem_cons_of_mem _ hx)) ?_ s hsR
      intro x hx
      rw [mergeTxnStep_filter_other targets preserve cutoff tgt st s₀ x.id
        (fun h => hs₀R x hx h)
        (fun t ht hcontra => hRt x (List.mem_cons_of_mem _ hx) t ht hcontra)]
      exact hself x (List.mem_cons_of_mem _ hx)

/-- Elements of a map-with-nodup-ids list are determined by their id. -/
theorem txn_id_inj {l : List Txn} (hnd : (l.map Txn.id).Nodup) {a b : Txn}
    (ha : a ∈ l) (hb : b ∈ l) (h : a.id = b.id) : a = b :=
  List.inj_on_of_nodup_map hnd ha hb h

/-- Under primary-key uniqueness, filtering for a member's id yields exactly
that member. -/
theorem filter_id_singleton {l : List Txn} (hnd : (l.map Txn.id).Nodup) {s : Txn}
    (hs : s ∈ l) : l.filter (fun u => decide (u.id = s.id)) = [s] := by
  induction l with
  | nil => cases hs
  | cons a l ih =>
    rw [List.map_cons, List.nodup_cons] at hnd
    rcases List.mem_cons.mp hs with hseq | hsl
    · subst hseq
      rw [List.filter_cons, if_pos (by simp)]
      congr 1
      apply List.filter_eq_nil_iff.mpr
      intro x hx
      simp only [decide_eq_true_eq]
      intro hcontra
      exact hnd.1 (hcontra ▸ List.mem_map_of_mem Txn.id hx)
    · rw [List.filter_cons, if_neg, ih hnd.2 hsl]
      simp only [decide_eq_true_eq]
      intro hcontra
      exact hnd.1 (hcontra ▸ List.mem_map_of_mem Txn.id hsl)

/-- C1 — Merge conservation: for every pre-merge state in which source and
target accounts exist with matching org_id and name (two distinct accounts,
with primary-key-unique transaction ids) and every source transaction has a
posted timestamp (the schema's `posted` column is non-nullable, so this always
holds), after a successful `merge_accounts(source, target)`: every source
transaction with `posted < cutoff` (cutoff = now − lookback_months·30 days)
exists exactly once under the target account, every source transaction with
`posted ≥ cutoff` is deleted, and the returned counters count exactly those
two sets — no source transaction silently vanishes or is duplicated. -/
theorem merge_conservation (db : DB) (now : ℤ) (src tgt : String) (preserve : Bool)
    (lb : ℕ) (res : DB × MergeStats)
    (hnd : (db.transactions.map Txn.id).Nodup)
    (hne : src ≠ tgt)
    (hok : merge_accounts db now src tgt preserve lb = .ok res) :
    MergeConservationHolds db now src tgt lb res := by
  rw [merge_accounts_ok db now src tgt preserve lb res hok]
  have hndSrc : ((db.transactions.filter (fun t => decide (t.account_id = src))).map
      Txn.id).Nodup :=
    List.Nodup.sublist (List.Sublist.map Txn.id (List.filter_sublist db.transactions)) hnd
  have hRt : ∀ s ∈ db.transactions.filter (fun t => decide (t.account_id = src)),
      ∀ t ∈ db.transactions.filter (fun t => decide (t.account_id = tgt)), t.id ≠ s.id := by
    intro s hsm t htm hcontra
    have hs' := List.mem_of_mem_filter hsm
    have ht' := List.mem_of_mem_filter htm
    have hsacc : s.account_id = src := by simpa using List.of_mem_filter hsm
    have htacc : t.account_id = tgt := by simpa using List.of_mem_filter htm
    have : t = s := txn_id_inj hnd ht' hs' hcontra
    rw [this, hsacc] at htacc
    exact hne htacc
  have hself : ∀ s ∈ db.transactions.filter (fun t => decide (t.account_id = src)),
      db.transactions.filter (fun u => decide (u.id = s.id)) = [s] := by
    intro s hsm
    exact filter_id_singleton hnd (List.mem_of_mem_filter hsm)
  have hmain := mergeFold_filter_main
    (db.transactions.filter (fun t => decide (t.account_id = tgt))) preserve
    (now - (lb : ℤ) * 30 * 86400) tgt
    (db.transactions.filter (fun t => decide (t.account_id = src)))
    ⟨db.transactions, db.splits, ⟨0, 0, 0, 0, false⟩⟩ hndSrc hRt hself
  simp only [MergeConservationHolds, mergeBody]
  refine ⟨?_, ?_, ?_, ?_⟩
  · rw [mergeFold_stats]
    simp
  · rw [mergeFold_stats]
    simp
  · intro t htm hlt
    have h := hmain t htm
    rw [if_neg (not_le.mpr hlt)] at h
    rw [filterComm, h]
    have hacc : ({ t with account_id := tgt } : Txn).account_id ≠ src := Ne.symm hne
    simp [hacc]
  · intro t htm hge
    have h := hmain t htm
    rw [if_pos hge] at h
    rw [filterComm, h]
    rfl

/-- Witness for C1 on the merge fixture: one old source transaction is
reassigned, one recent matching source transaction is removed. -/
theorem merge_conservation_witness :
    MergeConservationHolds mergeDB 9000000 "s" "t" 1 (mergeBody mergeDB 9000000 "s" "t" true 1) :=
  merge_conservation mergeDB 9000000 "s" "t" true 1
    (mergeBody mergeDB 9000000 "s" "t" true 1) (by decide) (by decide) rfl

/-- C5 (amended) — Merge matched count: for every valid merge,
`transactions_matched` equals the number of source transactions with
`posted ≥ cutoff` whose `(posted, amount, description)` key matches an
existing target transaction when `preserve_categorization` is true, and
equals 0 when it is false (the counter is incremented only when the
categorization copy happens). -/
theorem merge_matched_count (db : DB) (now : ℤ) (src tgt : String) (preserve : Bool)
    (lb : ℕ) (res : DB × MergeStats)
    (hok : merge_accounts db now src tgt preserve lb = .ok res) :
    res.2.transactions_matched =
      if preserve then
        (db.transactions.filter (fun t => t.account_id = src)).countP
          (fun s => decide ((now - (lb : ℤ) * 30 * 86400) ≤ s.posted ∧
            ∃ t ∈ db.transactions.filter (fun t => t.account_id = tgt), t.key = s.key))
      else 0 := by
  rw [merge_accounts_ok db now src tgt preserve lb res hok]
  simp only [mergeBody]
  rw [mergeFold_stats]
  cases preserve with
  | false => rfl
  | true =>
    simp only [if_pos rfl, Nat.zero_add]
    apply List.countP_congr
    intro s _
    rw [decide_eq_true_eq, decide_eq_true_eq]
    constructor
    · rintro ⟨h1, h2⟩
      exact ⟨h1, (targetGet_isSome_iff _ _).mp h2⟩
    · rintro ⟨h1, h2⟩
      exact ⟨h1, (targetGet_isSome_iff _ _).mpr h2⟩

/-- Witness for C5 (amended): on the merge fixture with
`preserve_categorization = true` the matched counter equals the one matching
source transaction. -/
theorem merge_matched_count_witness :
    (merge_accounts mergeDB 9000000 "s" "t" true 1).toOption.map
        (fun p => p.2.transactions_matched) = some 1 := by
  have hok : merge_accounts mergeDB 9000000 "s" "t" true 1 =
      .ok (mergeBody mergeDB 9000000 "s" "t" true 1) := by rfl
  have h := merge_matched_count mergeDB 9000000 "s" "t" true 1
    (mergeBody mergeDB 9000000 "s" "t" true 1) hok
  rw [hok]
  show some ((mergeBody mergeDB 9000000 "s" "t" true 1).2.transactions_matched) = some 1
  rw [h]
  decide

/-- The `empty_months` counter reaches 2 exactly when the last two monthly
steps were both empty. -/
theorem zrun_two_iff (fetch : ℕ → ℕ) (n : ℕ) : 2 ≤ zrun fetch n ↔ twoEmptyAt fetch n := by
  match n with
  | 0 => simp [zrun, twoEmptyAt]
  | 1 =>
    by_cases h : fetch 0 = 0 <;> simp [zrun, h, twoEmptyAt]
  | (k + 2) =>
    by_cases h1 : fetch (k + 1) = 0 <;> by_cases h0 : fetch k = 0 <;>
      simp [zrun, h1, h0, twoEmptyAt]

/-- With `T` the first month count satisfying a stop condition, the loop run
from any reachable state `(zrun m, m)` with `m ≤ T` and enough fuel halts and
returns exactly `T`. -/
theorem initialSyncLoop_reaches (fetch : ℕ → ℕ) (maxMonths : Option ℕ) (T : ℕ)
    (hT : stopCondAt fetch maxMonths T) (hmin : ∀ n < T, ¬ stopCondAt fetch maxMonths n) :
    ∀ fuel m, m ≤ T → T < m + fuel →
      initialSyncLoop fetch maxMonths fuel (zrun fetch m, m) = some T := by
  intro fuel
  induction fuel with
  | zero => intro m h1 h2; omega
  | succ f ih =>
    intro m hm hf
    rcases Nat.lt_or_ge m T with hlt | hge
    · have hnostop := hmin m hlt
      have hz : zrun fetch m < 2 := by
        by_contra hz
        exact hnostop (Or.inl ((zrun_two_iff fetch m).mp (by omega)))
      have hcap : capHit maxMonths m = false := by
        cases hc : capHit maxMonths m
        · rfl
        · exact absurd (Or.inr hc) hnostop
      show initialSyncLoop fetch maxMonths (f + 1) (zrun fetch m, m) = some T
      rw [show initialSyncLoop fetch maxMonths (f + 1) (zrun fetch m, m) =
            (if zrun fetch m < 2 then
              if capHit maxMonths m = true then some m
              else initialSyncLoop fetch maxMonths f
                (if fetch m = 0 then zrun fetch m + 1 else 0, m + 1)
            else some m) from rfl]
      rw [if_pos hz, hcap]
      simp only [Bool.false_eq_true, if_false]
      have hstate : (if fetch m = 0 then zrun fetch m + 1 else 0, m + 1) =
          (zrun fetch (m + 1), m + 1) := by
        simp [zrun]
      rw [hstate]
      exact ih (m + 1) (by omega) (by omega)
    · have hmT : m = T := le_antisymm hm hge
      subst hmT
      rcases hT with h2e | hcap
      · have hz : 2 ≤ zrun fetch m := (zrun_two_iff fetch m).mpr h2e
        rw [show initialSyncLoop fetch maxMonths (f + 1) (zrun fetch m, m) =
              (if zrun fetch m < 2 then
                if capHit maxMonths m = true then some m
                else initialSyncLoop fetch maxMonths f
                  (if fetch m = 0 then zrun fetch m + 1 else 0, m + 1)
              else some m) from rfl]
        rw [if_neg (by omega)]
      · rw [show initialSyncLoop fetch maxMonths (f + 1) (zrun fetch m, m) =
              (if zrun fetch m < 2 then
                if capHit maxMonths m = true then some m
                else initialSyncLoop fetch maxMonths f
                  (if fetch m = 0 then zrun fetch m + 1 else 0, m + 1)
              else some m) from rfl]
        by_cases hz : zrun fetch m < 2
        · rw [if_pos hz, hcap]
          simp
        · rw [if_neg hz]

/-- C7 — Initial-sync termination: if the monthly fetches are all empty from
some month `B` on, the walk-back loop of `process_initial_sync` halts for
every fuel allowance of at least `B + 3` iterations (it never runs unbounded),
and it stops exactly at the first month count where either two consecutive
monthly steps processed zero transactions or the configured (Python-truthy)
maximum month count is reached — whichever comes first. -/
theorem initial_sync_terminates (fetch : ℕ → ℕ) (maxMonths : Option ℕ) (B : ℕ)
    (hB : ∀ k, B ≤ k → fetch k = 0) :
    ∃ m, (∀ fuel, B + 3 ≤ fuel → process_initial_sync fetch maxMonths fuel = some m) ∧
      stopCondAt fetch maxMonths m ∧ (∀ n < m, ¬ stopCondAt fetch maxMonths n) := by
  have htwo : twoEmptyAt fetch (B + 2) := by
    refine ⟨by omega, ?_, ?_⟩
    · simpa using hB B (le_refl B)
    · simpa using hB (B + 1) (by omega)
  have hex : ∃ n, stopCondAt fetch maxMonths n := ⟨B + 2, Or.inl htwo⟩
  refine ⟨Nat.find hex, ?_, Nat.find_spec hex, fun n hn => Nat.find_min hex hn⟩
  intro fuel hfuel
  have hTle : Nat.find hex ≤ B + 2 := Nat.find_min' hex (Or.inl htwo)
  have h := initialSyncLoop_reaches fetch maxMonths (Nat.find hex) (Nat.find_spec hex)
    (fun n hn => Nat.find_min hex hn) fuel 0 (by omega) (by omega)
  simpa [process_initial_sync, zrun] using h

/-- Witness for C7: a source with transactions only in the three most recent
months; the walk-back stops (at month count 5: three data months plus two
empty ones). -/
theorem initial_sync_terminates_witness :
    ∃ m, (∀ fuel, 3 + 3 ≤ fuel → process_initial_sync walkbackFetch none fuel = some m) ∧
      stopCondAt walkbackFetch none m ∧ (∀ n < m, ¬ stopCondAt walkbackFetch none n) :=
  initial_sync_terminates walkbackFetch none 3 (fun k hk => by
    simp only [walkbackFetch]
    rw [if_neg (by omega)])

/-- Witness for C8: a missing account id yields the not-found error; matching
ids with different names yield the validation error. -/
theorem merge_preconditions_witness :
    merge_accounts emptyDB 0 "s" "t" true 12 = .error .notFound ∧
    merge_accounts mergeDBmismatch 0 "s" "t" true 12 = .error .validation :=
  ⟨(merge_preconditions emptyDB 0 "s" "t" true 12).1 (Or.inl (by decide)),
   (merge_preconditions mergeDBmismatch 0 "s" "t" true 12).2
     ⟨"s", "acct", "o", "USD", none, some 1⟩ ⟨"t", "other", "o", "USD", none, some 2⟩
     (by decide) (by decide) (Or.inr (by decide))⟩

/-- `ordInsert` is a permutation of pushing the element on the front. -/
theorem ordInsert_perm (le : α → α → Bool) (a : α) (l : List α) :
    (ordInsert le a l).Perm (a :: l) := by
  induction l with
  | nil => exact List.Perm.refl _
  | cons b l ih =>
    unfold ordInsert
    by_cases h : le a b = true
    · rw [if_pos h]
    · rw [if_neg h]
      exact (List.Perm.cons b ih).trans (List.Perm.swap a b l)

/-- Insertion sort permutes its input. -/
theorem insSort_perm (le : α → α → Bool) (l : List α) : (insSort le l).Perm l := by
  induction l with
  | nil => exact List.Perm.refl _
  | cons a l ih => exact (ordInsert_perm le a (insSort le l)).trans (List.Perm.cons a ih)

/-- Every group emitted for the key `k` carries `k`'s org id and name. -/
theorem processGroupAccs_key (db : DB) (ss : ℕ) (mr : ℚ) (k : String × String)
    (accs : List Account) :
    ∀ g ∈ processGroupAccs db ss mr k accs, g.org_id = k.1 ∧ g.name = k.2 := by
  intro g hg
  rcases accs with _ | ⟨x, _ | ⟨y, _ | ⟨z, l⟩⟩⟩
  · simp [processGroupAccs, pairsOf] at hg
  · simp [processGroupAccs, pairsOf] at hg
  · simp only [processGroupAccs] at hg
    split_ifs at hg
    · simp at hg
    · rw [List.mem_singleton] at hg
      subst hg
      exact ⟨rfl, rfl⟩
    · simp at hg
  · simp only [processGroupAccs] at hg
    split_ifs at hg
    · simp at hg
    · rw [List.mem_map] at hg
      obtain ⟨s, _, rfl⟩ := hg
      exact ⟨rfl, rfl⟩

/-- A key whose sorted candidate group is the pair `[a, b]` is one of the
`GROUP BY ... HAVING count > 1` duplicate keys. -/
theorem pair_group_dupKey (db : DB) (a b : Account)
    (hgrp : insSort accLe (db.accounts.filter
      (fun x => x.org_id = a.org_id ∧ x.name = a.name)) = [a, b]) :
    (a.org_id, a.name) ∈ dupKeys db := by
  have hperm := insSort_perm accLe (db.accounts.filter
      (fun x => decide (x.org_id = a.org_id ∧ x.name = a.name)))
  rw [hgrp] at hperm
  have hmema : a ∈ db.accounts.filter
      (fun x => decide (x.org_id = a.org_id ∧ x.name = a.name)) :=
    hperm.subset (List.mem_cons_self _ _)
  refine List.mem_filter.mpr ⟨?_, ?_⟩
  · exact List.mem_dedup.mpr
      (List.mem_map.mpr ⟨a, (List.mem_filter.mp hmema).1, rfl⟩)
  · show decide (1 < db.accounts.countP
      (fun x => decide (x.org_id = a.org_id ∧ x.name = a.name))) = true
    rw [decide_eq_true_eq, List.countP_eq_length_filter, ← hperm.length_eq]
    simp

/-- C6 — Duplicate-pair threshold: when the sorted `(org_id, name)` candidate
group is exactly the pair `[a, b]` (older first), the detector reports the
pair as a duplicate group precisely when the older account's recent-sample is
non-empty and at least `min_ratio` of the sample's `(posted, amount,
description)` keys occur among the newer account's transactions; in
particular a pair whose older account has no transactions is never
reported. -/
theorem duplicate_pair_threshold (db : DB) (a b : Account) (ss : ℕ) (mr : ℚ)
    (hgrp : insSort accLe (db.accounts.filter
      (fun x => x.org_id = a.org_id ∧ x.name = a.name)) = [a, b]) :
    (⟨a.org_id, a.name, [a, b]⟩ : DupGroup) ∈ find_duplicate_accounts db ss mr ↔
      recentSample db ss a.id ≠ [] ∧
        mr ≤ (sampleMatches (recentSample db ss a.id)
            (db.transactions.filter (fun t => t.account_id = b.id)) : ℚ) /
          ((recentSample db ss a.id).length : ℚ) := by
  have hred : processGroup db ss mr (a.org_id, a.name) =
      processGroupAccs db ss mr (a.org_id, a.name)
        (insSort accLe (db.accounts.filter
          (fun x => x.org_id = a.org_id ∧ x.name = a.name))) := rfl
  constructor
  · intro hmem
    unfold find_duplicate_accounts at hmem
    rw [List.mem_flatten] at hmem
    obtain ⟨l, hl, hgl⟩ := hmem
    rw [List.mem_map] at hl
    obtain ⟨k, _, rfl⟩ := hl
    have hgl' : (⟨a.org_id, a.name, [a, b]⟩ : DupGroup) ∈
        processGroupAccs db ss mr k (insSort accLe (db.accounts.filter
          (fun x => x.org_id = k.1 ∧ x.name = k.2))) := hgl
    have hkey := processGroupAccs_key db ss mr k _ _ hgl'
    rcases k with ⟨k1, k2⟩
    have e1 : a.org_id = k1 := hkey.1
    have e2 : a.name = k2 := hkey.2
    subst e1
    subst e2
    rw [hred, hgrp] at hgl
    simp only [processGroupAccs] at hgl
    split_ifs at hgl with h1 h2
    · simp at hgl
    · have hne : recentSample db ss a.id ≠ [] := by
        intro h
        apply h1
        rw [h]
        rfl
      exact ⟨hne, h2⟩
    · simp at hgl
  · rintro ⟨hne, hratio⟩
    unfold find_duplicate_accounts
    rw [List.mem_flatten]
    refine ⟨processGroup db ss mr (a.org_id, a.name),
      List.mem_map_of_mem _ (pair_group_dupKey db a b hgrp), ?_⟩
    rw [hred, hgrp]
    simp only [processGroupAccs]
    have hempn : ¬ ((recentSample db ss a.id).isEmpty = true) := by
      intro hcontra
      apply hne
      cases hv : recentSample db ss a.id with
      | nil => rfl
      | cons x l => rw [hv] at hcontra; exact Bool.noConfusion hcontra
    rw [if_neg hempn, if_pos hratio]
    exact List.mem_singleton.mpr rfl

/-- Witness for C6: in the fixture where the older account has five recent
transactions, the pair is reported when the newer account matches four of the
five keys (ratio 4/5 at threshold 4/5), and not reported when it matches only
three. -/
theorem duplicate_pair_threshold_witness :
    (⟨"o", "dup", [oldAcct, newAcct]⟩ : DupGroup) ∈
      find_duplicate_accounts (dupDB 4) 5 (4 / 5) ∧
    (⟨"o", "dup", [oldAcct, newAcct]⟩ : DupGroup) ∉
      find_duplicate_accounts (dupDB 3) 5 (4 / 5) := by
  constructor
  · refine (duplicate_pair_threshold (dupDB 4) oldAcct newAcct 5 (4 / 5)
      (by decide)).mpr ⟨by decide, ?_⟩
    have h1 : sampleMatches (recentSample (dupDB 4) 5 oldAcct.id)
        ((dupDB 4).transactions.filter (fun t => t.account_id = newAcct.id)) = 4 := by
      decide
    have h2 : (recentSample (dupDB 4) 5 oldAcct.id).length = 5 := by decide
    rw [h1, h2]
    norm_num
  · intro hmem
    have h := (duplicate_pair_threshold (dupDB 3) oldAcct newAcct 5 (4 / 5)
      (by decide)).mp hmem
    have h1 : sampleMatches (recentSample (dupDB 3) 5 oldAcct.id)
        ((dupDB 3).transactions.filter (fun t => t.account_id = newAcct.id)) = 3 := by
      decide
    have h2 : (recentSample (dupDB 3) 5 oldAcct.id).length = 5 := by decide
    rw [h1, h2] at h
    have := h.2
    norm_num at this

end Grove
